import Mathlib

/-!
# Verification of the easy-ecs entity-component-system core

Shallow embedding of the C sources of the easy-ecs library (the revisions
`src/unnamed/part_001` — the most recent one, embedded here under its original
function names — together with the divergent fragments of `src/unnamed/part_000`
and `src/ecs.c`, embedded under the namespaces `Part000` and `EcsC`).

Modelling conventions:
* `ecsEntityId` and `ecsComponentMask` are modelled as `Nat`; the header `ecs.h`
  is not part of the sources, so, modelled from the spec, the mask type is taken
  to be 64 bits wide and the `nocomponent` / `noentity` sentinels are represented
  by `Option.none` results.
* component records are modelled at record granularity: a record is an owner id
  plus an opaque payload (a byte list); the C stride arithmetic walks records.
* `realloc` is assumed to succeed (the spec treats allocation failure as a
  silent abort of the single mutation, orthogonal to the claims proved here).
* paths on which the C program has undefined behaviour (null-pointer
  dereference, failing `assert`, `size_t` underflow followed by out-of-bounds
  access) are made explicit with an `Except UB` result.
* the C `do {...} while (swaps > 0)` sort loops and the binary-search loop are
  given as fuel-indexed recursions; the fuel chosen is provably sufficient
  (`bubbleGo_spec`, `findLoop` lemmas), so the embeddings agree with the
  unbounded C loops.
-/
/-- The body of one left-to-right pass of the in-place adjacent-swap sort loop
shared by `ecsSortComponents` (records keyed by owner id) and `ecsSortSystems`
(systems keyed by `execOrder`): `a` is the element currently in hand (the left
element of the next comparison); adjacent elements are swapped whenever `gt`
holds of them, and the number of swaps performed is returned alongside the
list. -/
def bubblePassGo (gt : α → α → Bool) (a : α) : List α → List α × Nat
  | [] => ([a], 0)
  | b :: t =>
    if gt a b then
      (b :: (bubblePassGo gt a t).1, (bubblePassGo gt a t).2 + 1)
    else
      (a :: (bubblePassGo gt b t).1, (bubblePassGo gt b t).2)

/-- One full pass of the sort loop over the list. -/
def bubblePass (gt : α → α → Bool) : List α → List α × Nat
  | [] => ([], 0)
  | a :: t => bubblePassGo gt a t

/-- Number of out-of-order pairs with respect to `gt`; this is the measure that
the sort loop strictly decreases, and hence the fuel bound used to render the
C `do {...} while (swaps > 0)` loop as a total function. -/
def inversions (gt : α → α → Bool) : List α → Nat
  | [] => 0
  | a :: t => t.countP (gt a) + inversions gt t

/-- The sort loop: repeat `bubblePass` until a pass performs no swap, giving up
(returning the list as is) only when the fuel runs out — which cannot happen
for the fuel chosen in `bubbleSort`, see `bubbleGo_spec`. -/
def bubbleGo (gt : α → α → Bool) : Nat → List α → List α
  | 0, l => l
  | fuel + 1, l =>
    let p := bubblePass gt l
    if p.2 = 0 then p.1 else bubbleGo gt fuel p.1

/-- The full sort loop with provably sufficient fuel. -/
def bubbleSort (gt : α → α → Bool) (l : List α) : List α :=
  bubbleGo gt (inversions gt l + 1) l

/-! ## Data model

Mirrors the `typedef struct` declarations at the top of the C file. Function
pointers (`ecsSystemFn`) are represented by numeric identifiers, and the opaque
component payload bytes by a `List Nat`. -/
/-- The `ecsQueryComparison` enumeration of the (missing) header, with the three
values the sources use. -/
inductive ecsQueryComparison
  | ECS_NOQUERY
  | ECS_QUERY_ANY
  | ECS_QUERY_ALL

deriving DecidableEq

/-- The `ecsComponentQuery` of a system: a mask plus a comparison mode. -/
structure ecsComponentQuery where
  mask : Nat
  comparison : ecsQueryComparison

deriving DecidableEq

/-- `ECSsystem` (part_001): callback, query, desired worker count, priority. -/
structure ECSsystem where
  fn : Nat
  query : ecsComponentQuery
  maxThreads : Int
  execOrder : Int

deriving DecidableEq

/-- The `ecsTask` tagged union, one constructor per `ECS_TASKTYPE` value, each
carrying exactly the fields that task type uses. -/
inductive ecsTask
  | ECS_ENTITY_DESTROY (entity : Nat)
  | ECS_COMPONENTS_DETACH (entity : Nat) (mask : Nat)
  | ECS_SYSTEM_CREATE (system : ECSsystem)
  | ECS_SYSTEM_DESTROY (fn : Nat)

deriving DecidableEq

/-- One stride-sized block of a component store: the owner entity id followed by
`componentSize` opaque payload bytes. -/
structure ComponentRecord where
  owner : Nat
  payload : List Nat

deriving DecidableEq

/-- `ECScomponentType`: single-bit id, payload size, and the dense record array.
The C `stride` field is always `componentSize + sizeof(ecsEntityId)` and is
implicit in the record-granular model; `size`/`begin` become the list. -/
structure ECScomponentType where
  id : Nat
  componentSize : Nat
  records : List ComponentRecord

deriving DecidableEq

/-- `ECSentityData`: entity id and attached-component mask. -/
structure ECSentityData where
  id : Nat
  mask : Nat

deriving DecidableEq

/-- The global state of the library: `ecsEntities` (with its `nextValidId`),
`ecsComponents`, `ecsSystems` and `ecsTasks`. -/
structure ECSworld where
  entities : List ECSentityData
  nextValidId : Nat
  components : List ECScomponentType
  systems : List ECSsystem
  tasks : List ecsTask

deriving DecidableEq

/-- Marker for executions on which the C program has undefined behaviour or
aborts: a null-pointer dereference, a failing `assert`, or a `size_t`
underflow followed by an out-of-bounds access. -/
inductive UB
  | nullDeref
  | assertFail
  | underflow

deriving DecidableEq

/-- `ecsInit`: the freshly initialised world. -/
def ecsInitWorld : ECSworld := ⟨[], 1, [], [], []⟩

/-! ## Find helpers (part_001) -/
/-- `ecsFindComponentType`: linear scan for the store whose id equals the mask;
the returned index stands for the C pointer into `ecsComponents.begin`. -/
def ecsFindComponentType : List ECScomponentType → Nat → Option (Nat × ECScomponentType)
  | [], _ => none
  | t :: ts, c =>
    if t.id = c then some (0, t)
    else (ecsFindComponentType ts c).map (fun p => (p.1 + 1, p.2))

/-- `ecsFindEntityData`: linear scan for the entity record with the given id. -/
def ecsFindEntityData : List ECSentityData → Nat → Option (Nat × ECSentityData)
  | [], _ => none
  | d :: ds, e =>
    if d.id = e then some (0, d)
    else (ecsFindEntityData ds e).map (fun p => (p.1 + 1, p.2))

/-- `ecsFindSystem`: linear scan for the system with the given callback. -/
def ecsFindSystem : List ECSsystem → Nat → Option Nat
  | [], _ => none
  | s :: ss, fn =>
    if s.fn = fn then some 0
    else (ecsFindSystem ss fn).map (· + 1)

/-- The `while (l <= r)` loop of part_001's `ecsFindComponentFor`, binary search
with midpoint `m = round((l+r)/2)`, written `l + (r - l + 1) / 2` (equal on the
loop's range `0 ≤ l ≤ r`). The C `int` variables are modelled as `Nat`; the one
place this differs — `r = m - 1` with `m = 0`, where the C `r` becomes `-1` and
the loop exits — instead repeats the same state until the fuel runs out, with
the same `none` result. The fuel `rs.length + 1` is sufficient on every other
path because the interval shrinks at each step. -/
def findLoop (rs : List ComponentRecord) (e : Nat) : Nat → Nat → Nat → Option Nat
  | 0, _, _ => none
  | fuel + 1, l, r =>
    if l ≤ r then
      let m := l + (r - l + 1) / 2
      match rs[m]? with
      | none => none
      | some x =>
        if x.owner = e then some m
        else if x.owner < e then findLoop rs e fuel (m + 1) r
        else findLoop rs e fuel l (m - 1)
    else none

/-- part_001's `ecsFindComponentFor`: `none` for an empty store, otherwise the
binary search over `[0, size-1]`; the returned index stands for the returned
record pointer `sptr`. -/
def ecsFindComponentFor (rs : List ComponentRecord) (e : Nat) : Option Nat :=
  if rs.length = 0 then none else findLoop rs e (rs.length + 1) 0 (rs.length - 1)

/-! ## Component operations (part_001) -/
/-- The comparison of `ecsSortComponents`: records swap when the left owner id
is greater than the right one. -/
def recordGt (a b : ComponentRecord) : Bool := decide (b.owner < a.owner)

/-- `ecsSortComponents`: the adjacent-swap sort of a store's records by owner
id, looping until a pass performs no swap. -/
def ecsSortComponents (rs : List ComponentRecord) : List ComponentRecord :=
  bubbleSort recordGt rs

/-- The comparison of `ecsSortSystems`: systems swap when the left `execOrder`
is greater than the right one. -/
def systemGt (a b : ECSsystem) : Bool := decide (b.execOrder < a.execOrder)

/-- `ecsSortSystems`: the adjacent-swap sort of the system list by `execOrder`. -/
def ecsSortSystems (ss : List ECSsystem) : List ECSsystem :=
  bubbleSort systemGt ss

/-- `ecsMakeComponentType`: fails with the `nocomponent` sentinel (modelled as
`none`) once 64 types — the bit width of `ecsComponentMask` — exist; otherwise
reserves the next bit `2 ^ count` and appends its empty descriptor.
(`ecsResizeComponents` is assumed to succeed.) -/
def ecsMakeComponentType (stride : Nat) (w : ECSworld) : Option Nat × ECSworld :=
  if w.components.length = 64 then (none, w)
  else
    (some (2 ^ w.components.length),
      { w with components :=
          w.components ++ [⟨2 ^ w.components.length, stride, []⟩] })

/-- `ecsGetComponentPtr`: looks up the store for mask `c` and binary-searches it
for entity `e`. The C code does not check `ecsFindComponentType` for `NULL`
before handing the pointer to `ecsFindComponentFor`, which immediately reads
`type->size`; an unregistered mask therefore dereferences a null pointer,
modelled as `.error .nullDeref`. On success the payload view (`ptr + 1`) is
returned, `none` standing for the C `NULL`. -/
def ecsGetComponentPtr (w : ECSworld) (e c : Nat) : Except UB (Option (List Nat)) :=
  match ecsFindComponentType w.components c with
  | none => .error .nullDeref
  | some (_, t) =>
    .ok ((ecsFindComponentFor t.records e).bind fun i => (t.records[i]?).map (·.payload))

/-- `ecsAttachComponent`: no-op when the type or entity is unknown or the mask
bit is already set; otherwise appends a zero-initialised record carrying the
owner id, sets the bit, and re-sorts the store. (`ecsResizeComponentType` is
assumed to succeed.) -/
def ecsAttachComponent (e c : Nat) (w : ECSworld) : ECSworld :=
  match ecsFindEntityData w.entities e, ecsFindComponentType w.components c with
  | some (ei, d), some (ti, t) =>
    if d.mask &&& c ≠ 0 then w
    else
      { w with
        components := w.components.set ti
          { t with records :=
              ecsSortComponents (t.records ++ [⟨e, List.replicate t.componentSize 0⟩]) },
        entities := w.entities.set ei { d with mask := d.mask ||| c } }
  | _, _ => w

/-- `ecsAttachComponents`: attach every component type whose bit `2 ^ i` is in
the query mask. The C loop re-reads `ecsComponents.size` each iteration, but
`ecsAttachComponent` never changes the number of stores, so iterating over the
initial range is faithful. -/
def ecsAttachComponents (e q : Nat) (w : ECSworld) : ECSworld :=
  (List.range w.components.length).foldl
    (fun acc i => if q &&& (2 ^ i) ≠ 0 then ecsAttachComponent e (2 ^ i) acc else acc) w

/-- The mask update `mask &= ~c`: clearing the bits of `c`. On `Nat`, bitwise
and-with-complement is expressed as `a ^^^ (a &&& c)`, which agrees with the C
`&= ~` bit for bit at every width (see `testBit_maskClear`). -/
def maskClear (a c : Nat) : Nat := a ^^^ (a &&& c)

/-- part_001's `ecsDetachComponent`: no-op when the type or entity is unknown,
the mask bit is clear, or no record is found; otherwise shifts the trailing
records down one stride (`memmove(block, block + stride, lenafter)`, i.e.
`eraseIdx`), shrinks the store, and clears the mask bit (`mask &= ~c`). -/
def ecsDetachComponent (e c : Nat) (w : ECSworld) : ECSworld :=
  match ecsFindComponentType w.components c with
  | none => w
  | some (ti, t) =>
    match ecsFindEntityData w.entities e with
    | none => w
    | some (ei, d) =>
      if d.mask &&& c = 0 then w
      else
        match ecsFindComponentFor t.records e with
        | none => w
        | some ri =>
          { w with
            components := w.components.set ti { t with records := t.records.eraseIdx ri },
            entities := w.entities.set ei { d with mask := maskClear d.mask c } }

/-- `ecsPushTask`: append the task to the queue (`ecsPushTaskStack` assumed to
succeed); nothing else changes. -/
def ecsPushTask (w : ECSworld) (task : ecsTask) : ECSworld :=
  { w with tasks := w.tasks ++ [task] }

/-- `ecsDetachComponents` (public, deferred): only records a task. -/
def ecsDetachComponents (e c : Nat) (w : ECSworld) : ECSworld :=
  ecsPushTask w (.ECS_COMPONENTS_DETACH e c)

/-- `ecsTaskDetachComponents`: detach every component type whose bit is in the
query mask (immediate detaches, run at flush). -/
def ecsTaskDetachComponents (e q : Nat) (w : ECSworld) : ECSworld :=
  (List.range w.components.length).foldl
    (fun acc i => if q &&& (2 ^ i) ≠ 0 then ecsDetachComponent e (2 ^ i) acc else acc) w

/-- `ecsCreateEntity`: allocate the next id, append the entity with mask `0`,
then immediately attach the requested components. (`ecsResizeEntities` is
assumed to succeed, so the `noentity` sentinel path is not taken.) -/
def ecsCreateEntity (components : Nat) (w : ECSworld) : Nat × ECSworld :=
  let id := w.nextValidId
  let w1 := { w with
    nextValidId := w.nextValidId + 1,
    entities := w.entities ++ [⟨id, 0⟩] }
  (id, ecsAttachComponents id components w1)

/-- `ecsGetComponentMask`: the entity's mask, or the `nocomponent` sentinel
(modelled as `none`) for an unknown entity. -/
def ecsGetComponentMask (w : ECSworld) (e : Nat) : Option Nat :=
  (ecsFindEntityData w.entities e).map (fun p => p.2.mask)

/-- `ecsDestroyEntity` (public, deferred): only records a task. -/
def ecsDestroyEntity (e : Nat) (w : ECSworld) : ECSworld :=
  ecsPushTask w (.ECS_ENTITY_DESTROY e)

/-- part_001's `ecsTaskDestroyEntity`: no-op for an unknown entity; otherwise
detaches every component in the entity's mask and then removes the entity
record. The C code computes `countAfter = size - index` and asserts
`countAfter < size`, which is false exactly when the entity sits at index 0 —
a fatal abort, modelled as `.error .assertFail`. (When the assert passes, the
`memmove` of `countAfter` records starting at `data+1` reads one record past
the end of the array; the over-read garbage lands in the slot that the
following resize discards, so the logical effect is `eraseIdx`.) -/
def ecsTaskDestroyEntity (e : Nat) (w : ECSworld) : Except UB ECSworld :=
  match ecsFindEntityData w.entities e with
  | none => .ok w
  | some (ei, d) =>
    let w1 := ecsTaskDetachComponents e d.mask w
    let countAfter := w1.entities.length - ei
    if countAfter < w1.entities.length then
      .ok { w1 with entities := w1.entities.eraseIdx ei }
    else
      .error .assertFail

/-! ## Query matching and the scheduler (part_001) -/
/-- `matchQuery`: `ECS_QUERY_ANY` tests for a non-empty intersection,
`ECS_QUERY_ALL` for containment, and every other comparison value matches
nothing. -/
def matchQuery (query : ecsComponentQuery) (mask : Nat) : Bool :=
  if query.comparison = .ECS_QUERY_ANY then mask &&& query.mask != 0
  else if query.comparison = .ECS_QUERY_ALL then mask &&& query.mask == query.mask
  else false

/-- The C conversion of a (possibly negative) `int` to the 64-bit `size_t`. -/
def intToSizeT (i : Int) : Nat := (i % (2 ^ 64)).toNat

/-- The worker slices of part_001's `ecsRunSystems` dispatch, as a function of
the already-converted `size_t` value of `maxThreads`. `threadCount` is clamped
to the matched count when positive and forced to 1 when zero; the `≤ 1` case is
the sequential call with the whole list (one slice). Otherwise the first
`threadCount - 1` slices hold `perThreadCount = (total - total % (threadCount-1))
/ (threadCount-1)` entries starting at `perThreadCount * j`, and the last slice
holds the remainder `total % (threadCount-1)`. -/
def ecsSliceUp (tcW : Nat) (l : List α) : List (List α) :=
  let tc := if 0 < tcW then (if l.length < tcW then l.length else tcW) else 1
  if tc ≤ 1 then [l]
  else
    let per := (l.length - l.length % (tc - 1)) / (tc - 1)
    let rem := l.length % (tc - 1)
    (List.range tc).map fun j => (l.drop (per * j)).take (if j = tc - 1 then rem else per)

/-- The worker slices for a system's `maxThreads` field (an `int`, converted to
`size_t` by the assignment `size_t threadCount = system.maxThreads`). -/
def ecsSlices (maxThreads : Int) (l : List α) : List (List α) :=
  ecsSliceUp (intToSizeT maxThreads) l

/-- The arguments of one callback invocation `fn(entities, components, count,
deltaTime)` — a ghost record of what a system was shown during a tick. `count`
always equals the length of the entity slice, and `deltaTime` is passed through
uninspected, so neither is stored. -/
structure SystemCall where
  fn : Nat
  argEntities : List Nat
  argMasks : List Nat

deriving DecidableEq

/-- The behaviour of the world's callbacks: given the callback identifier and
the entity/mask slices it was invoked with, the list of deferred tasks it
submits via `ecsPushTask` during the call. Mutation of component payloads is
not modelled; the spec's concurrency discipline routes every structural change
through the deferred queue. -/
def SystemBehavior : Type := Nat → List Nat → List Nat → List ecsTask

/-- The two parallel sequences (matched entity ids, matched masks) built by the
snapshot-and-filter loop of `ecsRunSystems`, preserving entity-list order. -/
def matchedLists (entities : List ECSentityData) (q : ecsComponentQuery) :
    List Nat × List Nat :=
  let m := entities.filter (fun d => matchQuery q d.mask)
  (m.map (·.id), m.map (·.mask))

/-- One worker's callback invocation during a dispatch: the submitted tasks are
appended to the queue and the invocation is recorded in the ghost log. -/
def ecsSliceCall (interp : SystemBehavior) (fn : Nat)
    (acc : ECSworld × List SystemCall) (s : List Nat × List Nat) :
    ECSworld × List SystemCall :=
  ({ acc.1 with tasks := acc.1.tasks ++ interp fn s.1 s.2 },
    acc.2 ++ [⟨fn, s.1, s.2⟩])

/-- One iteration of the system loop of `ecsRunSystems`: an `ECS_NOQUERY`
system is invoked once with `NULL, NULL, 0`; otherwise the matched sequences
are built and the callback is invoked once per worker slice. Task submissions
from the callbacks are appended to the queue; the ghost `SystemCall` log
records every invocation in order. -/
def ecsRunOneSystem (interp : SystemBehavior) (w : ECSworld) (log : List SystemCall)
    (sys : ECSsystem) : ECSworld × List SystemCall :=
  if sys.query.comparison = .ECS_NOQUERY then
    ({ w with tasks := w.tasks ++ interp sys.fn [] [] }, log ++ [⟨sys.fn, [], []⟩])
  else
    ((ecsSlices sys.maxThreads (matchedLists w.entities sys.query).1).zip
        (ecsSlices sys.maxThreads (matchedLists w.entities sys.query).2)).foldl
      (ecsSliceCall interp sys.fn) (w, log)

/-- The system loop of `ecsRunSystems` over a list of systems. The C loop
re-reads `ecsSystems.size` each iteration, but during the loop the callbacks
only append tasks, so folding over the initial list is faithful. -/
def ecsSystemsPhase (interp : SystemBehavior) :
    List ECSsystem → ECSworld → List SystemCall → ECSworld × List SystemCall
  | [], w, log => (w, log)
  | sys :: rest, w, log =>
    ecsSystemsPhase interp rest (ecsRunOneSystem interp w log sys).1
      (ecsRunOneSystem interp w log sys).2

/-- `ecsTaskEnableSystem`: append the new system and re-sort by `execOrder`
(`ecsResizeSystems` assumed to succeed). -/
def ecsTaskEnableSystem (sys : ECSsystem) (w : ECSworld) : ECSworld :=
  { w with systems := ecsSortSystems (w.systems ++ [sys]) }

/-- `ecsEnableSystem` (public, deferred): only records a task. -/
def ecsEnableSystem (fn : Nat) (query : Nat) (comp : ecsQueryComparison)
    (maxThreads execOrder : Int) (w : ECSworld) : ECSworld :=
  ecsPushTask w (.ECS_SYSTEM_CREATE ⟨fn, ⟨query, comp⟩, maxThreads, execOrder⟩)

/-- `ecsDisableSystem` (public, deferred): only records a task. -/
def ecsDisableSystem (fn : Nat) (w : ECSworld) : ECSworld :=
  ecsPushTask w (.ECS_SYSTEM_DESTROY fn)

/-- part_001's `ecsTaskDisableSystem`. Unlike the part_000 and ecs.c revisions
there is no `NULL` check on the `ecsFindSystem` result: for a callback that is
not registered the C code computes `dist = (end - NULL) - 1` and calls
`memmove(NULL, NULL + 1, dist * sizeof(ECSsystem))` (and, for an empty list,
`ecsResizeSystems(0 - 1)`), which is undefined behaviour — modelled as
`.error .nullDeref`. When the system is found, the trailing systems are shifted
down one slot (`eraseIdx`). -/
def ecsTaskDisableSystem (fn : Nat) (w : ECSworld) : Except UB ECSworld :=
  match ecsFindSystem w.systems fn with
  | none => .error .nullDeref
  | some i => .ok { w with systems := w.systems.eraseIdx i }

/-- `ecsRunTask`: dispatch on the task type. -/
def ecsRunTask (task : ecsTask) (w : ECSworld) : Except UB ECSworld :=
  match task with
  | .ECS_ENTITY_DESTROY e => ecsTaskDestroyEntity e w
  | .ECS_COMPONENTS_DETACH e q => .ok (ecsTaskDetachComponents e q w)
  | .ECS_SYSTEM_CREATE s => .ok (ecsTaskEnableSystem s w)
  | .ECS_SYSTEM_DESTROY fn => ecsTaskDisableSystem fn w

/-- `ecsClearTasks`: the queue is freed and emptied. -/
def ecsClearTasks (w : ECSworld) : ECSworld := { w with tasks := [] }

/-- `ecsRunTasks`: apply every queued task in submission order, then clear the
queue. The applied tasks never read or write the queue itself, so the C loop
bound `ecsTasks.size` stays constant during the loop. -/
def ecsRunTasks (w : ECSworld) : Except UB ECSworld :=
  (w.tasks.foldlM (fun acc task => ecsRunTask task acc) w).map ecsClearTasks

/-- `ecsRunSystems` (the whole tick): run every system in list order, join, and
only then flush the task queue. -/
def ecsRunSystems (interp : SystemBehavior) (w : ECSworld) :
    Except UB (ECSworld × List SystemCall) :=
  (ecsRunTasks (ecsSystemsPhase interp w.systems w []).1).map
    (fun w2 => (w2, (ecsSystemsPhase interp w.systems w []).2))

/-! ## The divergent fragments of the older revisions

`src/ecs.c` and `src/unnamed/part_000` differ from part_001 exactly where the
claims need them: their `ecsDetachComponent` moves the **last** record into the
freed slot instead of shifting, and never clears the entity's mask bit;
part_000's parallel dispatch computes `max(maxThreads, total)` workers and
drops the remainder. -/
namespace EcsC

/-- `findComponentFor` of src/ecs.c: a linear scan over the records, returning
the index of the first record owned by `id` (the C function returns the record
pointer `sptr`). -/
def findComponentFor (rs : List ComponentRecord) (e : Nat) : Option Nat :=
  rs.findIdx? (fun r => r.owner == e)

/-- `ecsDetachComponent` of src/ecs.c (identical in structure to part_000's):
after the same type/entity/mask guards as part_001, the **last** record is
copied over the found one (`memmove(block, last, stride)`) and the store is
shortened by one. The entity's mask bit is **not** cleared — the function ends
after the resize. -/
def ecsDetachComponent (e c : Nat) (w : ECSworld) : ECSworld :=
  match ecsFindComponentType w.components c with
  | none => w
  | some (ti, t) =>
    match ecsFindEntityData w.entities e with
    | none => w
    | some (_, d) =>
      if d.mask &&& c = 0 then w
      else
        match findComponentFor t.records e with
        | none => w
        | some ri =>
          match t.records.getLast? with
          | none => w
          | some last =>
            { w with components :=
                w.components.set ti { t with records := (t.records.set ri last).dropLast } }

end EcsC

namespace Part000

/-- The `while (l <= r)` loop of part_000's `ecsFindComponentFor`, specialised
to a store of `componentSize = 0` records, whose stride is exactly one 8-byte
entity id: the buffer `buf` is the list of owner-id words. The C midpoint is
`floorf((l+r)/2)`; `l`, `r`, `m` are `size_t`, so when the code takes `r = m-1`
with `m = 0` the value wraps to `SIZE_MAX` and subsequent iterations read out
of bounds — modelled as `.error .underflow`. On success, the returned offset is
`sptr + sizeof(ecsEntityId)`, i.e. the word offset `m + 1`. -/
def findWordGo (buf : List Nat) (e : Nat) : Nat → Nat → Nat → Except UB (Option Nat)
  | 0, _, _ => .ok none
  | fuel + 1, l, r =>
    if l ≤ r then
      let m := (l + r) / 2
      match buf[m]? with
      | none => .error .underflow
      | some v =>
        if v < e then findWordGo buf e fuel (m + 1) r
        else if e < v then
          (if m = 0 then .error .underflow else findWordGo buf e fuel l (m - 1))
        else .ok (some (m + 1))
    else .ok none

/-- part_000's `ecsFindComponentFor` on a one-word-per-record store. There is
no empty-store guard: for `size = 0` the initialisation `r = type->size - 1`
itself wraps to `SIZE_MAX`. -/
def ecsFindComponentFor (buf : List Nat) (e : Nat) : Except UB (Option Nat) :=
  if buf.length = 0 then .error .underflow
  else findWordGo buf e (buf.length + 1) 0 (buf.length - 1)

/-- part_000's `ecsAttachComponent` acting on a one-word-per-record store (the
guards and the mask update are as in part_001): append a zeroed record, write
the owner id into it, and `ecsSortComponents` — word-granular for this stride. -/
def ecsAttachComponent (buf : List Nat) (e : Nat) : List Nat :=
  bubbleSort (fun a b => decide (b < a)) (buf ++ [e])

/-- The store transformation of part_000's `ecsDetachComponent` (lines 239-249)
on a one-word-per-record store, given that the type/entity/mask guards passed:
`block = ecsFindComponentFor(...)` — which for this revision points at
`sptr + sizeof(ecsEntityId)`, i.e. at word offset `m + 1`, one word past the
record that owns `e` — then `memmove(block, last, stride)` copies the last
record there and `ecsResizeComponentType(size - 1)` truncates the store. -/
def ecsDetachComponent (buf : List Nat) (e : Nat) : Except UB (List Nat) := do
  match ← ecsFindComponentFor buf e with
  | none => pure buf
  | some o => pure ((buf.set o (buf.getD (buf.length - 1) 0)).take (buf.length - 1))

/-- The worker slices of part_000's `ecsRunSystems` dispatch: for
`maxThreads ≤ 1` the single sequential call; otherwise
`threadCount = maxThreads > total ? maxThreads : total` — the **maximum**,
despite the comment "avoid creating more threads than there are matching
entities" directly above it — and every one of the `threadCount` slices holds
`perThreadCount = total / threadCount` entries, with no remainder slice. -/
def ecsSlices (maxThreads : Int) (l : List α) : List (List α) :=
  if maxThreads ≤ 1 then [l]
  else
    let mtW := intToSizeT maxThreads
    let tc := if l.length < mtW then mtW else l.length
    let per := l.length / tc
    (List.range tc).map fun j => (l.drop (per * j)).take per

end Part000

deriving instance DecidableEq for Except

/-! ## The sorted-store invariant and the binary search -/
/-- The layout invariant of a record array: owner ids strictly ascending by
position (which makes them unique). -/
def RecsSorted (rs : List ComponentRecord) : Prop :=
  rs.Pairwise (fun a b => a.owner < b.owner)

/-! ## The well-formedness invariant of a world -/
/-- Each store's records satisfy the sortedness invariant. -/
def StoreSorted (t : ECScomponentType) : Prop := RecsSorted t.records

/-- The catalog invariant established by `ecsMakeComponentType`: the store at
index `i` carries the single-bit id `2 ^ i` (so ids are nonzero, pairwise
distinct, and pairwise bit-disjoint). -/
def TypeIdsPow (l : List ECScomponentType) : Prop := ∀ p ∈ l.enum, p.2.id = 2 ^ p.1

/-- The mask/store coherence invariant: an entity's mask has a bit in common
with a store's id exactly when the store holds a record owned by it. -/
def Coherent (w : ECSworld) : Prop :=
  ∀ d ∈ w.entities, ∀ t ∈ w.components,
    (d.mask &&& t.id ≠ 0 ↔ ∃ r ∈ t.records, r.owner = d.id)

/-- Well-formedness of the world state: sorted stores, power-of-two store ids,
unique entity ids, and mask/store coherence. All reachable worlds satisfy it
(`WF_ecsInitWorld`, `WF.attach`, `WF.detach`, ...). -/
def WF (w : ECSworld) : Prop :=
  (∀ t ∈ w.components, StoreSorted t) ∧ TypeIdsPow w.components ∧
    (w.entities.map (·.id)).Nodup ∧ Coherent w

/-! ## Operation sequences and registration runs -/
/-- One public store operation: a direct `ecsAttachComponent` or
`ecsDetachComponent` call. -/
inductive EcsOp
  | attach (e c : Nat)
  | detach (e c : Nat)

/-- Apply one operation. -/
def applyOp (w : ECSworld) : EcsOp → ECSworld
  | .attach e c => ecsAttachComponent e c w
  | .detach e c => ecsDetachComponent e c w

/-- Apply a sequence of attach/detach operations in order. -/
def applyOps (ops : List EcsOp) (w : ECSworld) : ECSworld :=
  ops.foldl applyOp w

/-- The world after `n` successive `ecsMakeComponentType` calls starting from
`ecsInit`, the `i`-th call registering payload size `strides i`. -/
def regRun (strides : Nat → Nat) : Nat → ECSworld
  | 0 => ecsInitWorld
  | n + 1 => (ecsMakeComponentType (strides n) (regRun strides n)).2

/-- The mask returned by the `n`-th registration call of `regRun`. -/
def regResult (strides : Nat → Nat) (n : Nat) : Option Nat :=
  (ecsMakeComponentType (strides n) (regRun strides n)).1

instance (rs : List ComponentRecord) : Decidable (RecsSorted rs) :=
  inferInstanceAs (Decidable (rs.Pairwise (fun a b : ComponentRecord => a.owner < b.owner)))

instance (t : ECScomponentType) : Decidable (StoreSorted t) :=
  inferInstanceAs (Decidable (RecsSorted t.records))

instance (l : List ECScomponentType) : Decidable (TypeIdsPow l) :=
  inferInstanceAs (Decidable (∀ p ∈ l.enum, p.2.id = 2 ^ p.1))

instance (w : ECSworld) : Decidable (Coherent w) :=
  inferInstanceAs (Decidable (∀ d ∈ w.entities, ∀ t ∈ w.components,
    (d.mask &&& t.id ≠ 0 ↔ ∃ r ∈ t.records, r.owner = d.id)))

instance (w : ECSworld) : Decidable (WF w) :=
  inferInstanceAs (Decidable (_ ∧ _ ∧ _ ∧ _))

theorem bubblePassGo_perm (gt : α → α → Bool) (t : List α) :
    ∀ a, (bubblePassGo gt a t).1.Perm (a :: t) := by
  induction t with
  | nil => intro a; simp [bubblePassGo]
  | cons b t ih =>
    intro a
    rw [bubblePassGo]
    split
    · exact (((ih a).cons b).trans (List.Perm.swap a b t))
    · exact (ih b).cons a

theorem bubblePassGo_of_swaps_zero (gt : α → α → Bool) (t : List α) :
    ∀ a, (bubblePassGo gt a t).2 = 0 →
      (bubblePassGo gt a t).1 = a :: t ∧ (a :: t).Chain' (fun x y => gt x y = false) := by
  induction t with
  | nil => intro a _; simp [bubblePassGo]
  | cons b t ih =>
    intro a
    rw [bubblePassGo]
    split
    · intro h
      simp at h
    · next hgt =>
      intro h
      simp only at h
      have ihb := ih b h
      constructor
      · simp [ihb.1]
      · exact List.chain'_cons.mpr ⟨Bool.eq_false_iff.mpr hgt, ihb.2⟩

theorem bubblePassGo_inversions (gt : α → α → Bool)
    (hasym : ∀ a b, gt a b = true → gt b a = false) (t : List α) :
    ∀ a, inversions gt (bubblePassGo gt a t).1 + (bubblePassGo gt a t).2 =
      inversions gt (a :: t) := by
  induction t with
  | nil => intro a; simp [bubblePassGo, inversions]
  | cons b t ih =>
    intro a
    rw [bubblePassGo]
    split
    · next hgt =>
      have iha := ih a
      have hperm := bubblePassGo_perm gt t a
      simp only [inversions] at iha ⊢
      rw [hperm.countP_eq (gt b)]
      simp [List.countP_cons, hgt, hasym a b hgt]
      omega
    · next hgt =>
      have ihb := ih b
      have hperm := bubblePassGo_perm gt t b
      simp only [inversions] at ihb ⊢
      rw [hperm.countP_eq (gt a)]
      simp [List.countP_cons, Bool.eq_false_iff.mpr hgt]
      omega

theorem bubblePass_perm (gt : α → α → Bool) : ∀ l : List α, (bubblePass gt l).1.Perm l
  | [] => by simp [bubblePass]
  | a :: t => bubblePassGo_perm gt t a

theorem bubblePass_of_swaps_zero (gt : α → α → Bool) :
    ∀ l : List α, (bubblePass gt l).2 = 0 →
      (bubblePass gt l).1 = l ∧ l.Chain' (fun a b => gt a b = false)
  | [] => by simp [bubblePass]
  | a :: t => bubblePassGo_of_swaps_zero gt t a

theorem bubblePass_inversions (gt : α → α → Bool)
    (hasym : ∀ a b, gt a b = true → gt b a = false) :
    ∀ l : List α, inversions gt (bubblePass gt l).1 + (bubblePass gt l).2 = inversions gt l
  | [] => by simp [bubblePass, inversions]
  | a :: t => bubblePassGo_inversions gt hasym t a

theorem bubbleGo_spec (gt : α → α → Bool)
    (hasym : ∀ a b, gt a b = true → gt b a = false) :
    ∀ (fuel : Nat) (l : List α), inversions gt l < fuel →
      (bubbleGo gt fuel l).Perm l ∧ (bubbleGo gt fuel l).Chain' (fun a b => gt a b = false) := by
  intro fuel
  induction fuel with
  | zero => intro l h; omega
  | succ f ih =>
    intro l h
    rw [bubbleGo]
    split
    · next hz =>
      have h0 := bubblePass_of_swaps_zero gt l hz
      rw [h0.1]
      exact ⟨List.Perm.refl l, h0.2⟩
    · next hz =>
      have hinv := bubblePass_inversions gt hasym l
      have hlt : inversions gt (bubblePass gt l).1 < f := by omega
      have := ih (bubblePass gt l).1 hlt
      exact ⟨this.1.trans (bubblePass_perm gt l), this.2⟩

theorem bubbleSort_perm (gt : α → α → Bool)
    (hasym : ∀ a b, gt a b = true → gt b a = false) (l : List α) :
    (bubbleSort gt l).Perm l :=
  (bubbleGo_spec gt hasym (inversions gt l + 1) l (Nat.lt_succ_self _)).1

theorem bubbleSort_sorted (gt : α → α → Bool)
    (hasym : ∀ a b, gt a b = true → gt b a = false) (l : List α) :
    (bubbleSort gt l).Chain' (fun a b => gt a b = false) :=
  (bubbleGo_spec gt hasym (inversions gt l + 1) l (Nat.lt_succ_self _)).2

/-! ## Specifications of the find helpers -/
theorem ecsFindComponentType_eq_some {l : List ECScomponentType} {c i : Nat}
    {t : ECScomponentType} (h : ecsFindComponentType l c = some (i, t)) :
    l[i]? = some t ∧ t.id = c := by
  induction l generalizing i with
  | nil => simp [ecsFindComponentType] at h
  | cons x xs ih =>
    rw [ecsFindComponentType] at h
    split at h
    · next hx =>
      cases h
      exact ⟨by simp, hx⟩
    · cases hfx : ecsFindComponentType xs c with
      | none => rw [hfx] at h; simp at h
      | some p =>
        obtain ⟨j, u⟩ := p
        rw [hfx] at h
        simp at h
        obtain ⟨rfl, rfl⟩ := h
        have := ih hfx
        simpa using this

theorem ecsFindComponentType_set {l : List ECScomponentType} {c i : Nat}
    {t t' : ECScomponentType} (h : ecsFindComponentType l c = some (i, t))
    (h' : t'.id = c) : ecsFindComponentType (l.set i t') c = some (i, t') := by
  induction l generalizing i with
  | nil => simp [ecsFindComponentType] at h
  | cons x xs ih =>
    rw [ecsFindComponentType] at h
    split at h
    · next hx =>
      cases h
      simp [List.set, ecsFindComponentType, h']
    · next hx =>
      cases hfx : ecsFindComponentType xs c with
      | none => rw [hfx] at h; simp at h
      | some p =>
        obtain ⟨j, u⟩ := p
        rw [hfx] at h
        simp at h
        obtain ⟨rfl, rfl⟩ := h
        simp only [List.set, ecsFindComponentType]
        rw [if_neg hx, ih hfx]
        rfl

theorem ecsFindEntityData_eq_some {l : List ECSentityData} {e i : Nat}
    {d : ECSentityData} (h : ecsFindEntityData l e = some (i, d)) :
    l[i]? = some d ∧ d.id = e := by
  induction l generalizing i with
  | nil => simp [ecsFindEntityData] at h
  | cons x xs ih =>
    rw [ecsFindEntityData] at h
    split at h
    · next hx =>
      cases h
      exact ⟨by simp, hx⟩
    · cases hfx : ecsFindEntityData xs e with
      | none => rw [hfx] at h; simp at h
      | some p =>
        obtain ⟨j, u⟩ := p
        rw [hfx] at h
        simp at h
        obtain ⟨rfl, rfl⟩ := h
        have := ih hfx
        simpa using this

theorem ecsFindEntityData_set {l : List ECSentityData} {e i : Nat}
    {d d' : ECSentityData} (h : ecsFindEntityData l e = some (i, d))
    (h' : d'.id = e) : ecsFindEntityData (l.set i d') e = some (i, d') := by
  induction l generalizing i with
  | nil => simp [ecsFindEntityData] at h
  | cons x xs ih =>
    rw [ecsFindEntityData] at h
    split at h
    · next hx =>
      cases h
      simp [List.set, ecsFindEntityData, h']
    · next hx =>
      cases hfx : ecsFindEntityData xs e with
      | none => rw [hfx] at h; simp at h
      | some p =>
        obtain ⟨j, u⟩ := p
        rw [hfx] at h
        simp at h
        obtain ⟨rfl, rfl⟩ := h
        simp only [List.set, ecsFindEntityData]
        rw [if_neg hx, ih hfx]
        rfl

/-! ## Bitmask algebra

The mask updates `mask |= c`, `mask &= ~c` and the guards `mask & c` interact
through these identities, all proved bit by bit. -/
theorem testBit_land_eq_zero {c c' : Nat} (h : c &&& c' = 0) (k : Nat) :
    c.testBit k = false ∨ c'.testBit k = false := by
  have := congrArg (fun n => Nat.testBit n k) h
  simp only [Nat.testBit_land, Nat.zero_testBit] at this
  rcases Bool.and_eq_false_iff.mp this with h' | h'
  · exact Or.inl h'
  · exact Or.inr h'

theorem two_pow_land_two_pow_of_ne {i j : Nat} (h : i ≠ j) : 2 ^ i &&& 2 ^ j = 0 := by
  apply Nat.eq_of_testBit_eq
  intro k
  simp only [Nat.testBit_land, Nat.testBit_two_pow, Nat.zero_testBit]
  by_cases hik : i = k <;> by_cases hjk : j = k <;> simp_all

theorem lor_land_absorb (a c : Nat) : (a ||| c) &&& c = c := by
  apply Nat.eq_of_testBit_eq
  intro k
  simp only [Nat.testBit_land, Nat.testBit_lor]
  cases a.testBit k <;> cases c.testBit k <;> rfl

theorem lor_land_of_land_zero {b c : Nat} (h : b &&& c = 0) (a : Nat) :
    (a ||| b) &&& c = a &&& c := by
  apply Nat.eq_of_testBit_eq
  intro k
  simp only [Nat.testBit_land, Nat.testBit_lor]
  rcases testBit_land_eq_zero h k with h' | h' <;> rw [h'] <;>
    cases a.testBit k <;> cases c.testBit k <;> simp_all

theorem testBit_maskClear (a c k : Nat) :
    (maskClear a c).testBit k = (a.testBit k && !c.testBit k) := by
  rw [maskClear, Nat.testBit_xor, Nat.testBit_land]
  cases a.testBit k <;> cases c.testBit k <;> rfl

theorem ldiff_land_self (a c : Nat) : maskClear a c &&& c = 0 := by
  apply Nat.eq_of_testBit_eq
  intro k
  simp only [Nat.testBit_land, testBit_maskClear, Nat.zero_testBit]
  cases a.testBit k <;> cases c.testBit k <;> rfl

theorem ldiff_land_of_land_zero {c c' : Nat} (h : c &&& c' = 0) (a : Nat) :
    maskClear a c &&& c' = a &&& c' := by
  apply Nat.eq_of_testBit_eq
  intro k
  simp only [Nat.testBit_land, testBit_maskClear]
  rcases testBit_land_eq_zero h k with h' | h' <;> rw [h'] <;>
    cases a.testBit k <;> cases c'.testBit k <;> simp_all

theorem RecsSorted.owners_nodup {rs : List ComponentRecord} (hs : RecsSorted rs) :
    (rs.map (·.owner)).Nodup :=
  List.pairwise_map.mpr (hs.imp fun h => Nat.ne_of_lt h)

/-- Unfolding equation of `findLoop` at positive fuel. -/
theorem findLoop_succ (rs : List ComponentRecord) (e fuel l r : Nat) :
    findLoop rs e (fuel + 1) l r =
      if l ≤ r then
        match rs[l + (r - l + 1) / 2]? with
        | none => none
        | some x =>
          if x.owner = e then some (l + (r - l + 1) / 2)
          else if x.owner < e then findLoop rs e fuel (l + (r - l + 1) / 2 + 1) r
          else findLoop rs e fuel l (l + (r - l + 1) / 2 - 1)
      else none := rfl

theorem findLoop_sound {rs : List ComponentRecord} {e : Nat} :
    ∀ {fuel l r i : Nat}, findLoop rs e fuel l r = some i →
      ∃ h : i < rs.length, rs[i].owner = e := by
  intro fuel
  induction fuel with
  | zero => intro l r i h; simp [findLoop] at h
  | succ f ih =>
    intro l r i h
    rw [findLoop_succ] at h
    split at h
    · cases hm : rs[l + (r - l + 1) / 2]? with
      | none => rw [hm] at h; simp at h
      | some x =>
        rw [hm] at h
        simp only at h
        split at h
        · next hown =>
          cases h
          obtain ⟨hb, hv⟩ := List.getElem?_eq_some.mp hm
          exact ⟨hb, by rw [hv]; exact hown⟩
        · split at h
          · exact ih h
          · exact ih h
    · simp at h

theorem findLoop_complete {rs : List ComponentRecord} {e : Nat} (hs : RecsSorted rs) :
    ∀ (fuel l r k : Nat) (hk : k < rs.length), rs[k].owner = e →
      l ≤ k → k ≤ r → r < rs.length → r - l < fuel →
      ∃ i, findLoop rs e fuel l r = some i := by
  have hmono : ∀ (i j : Nat) (hi : i < rs.length) (hj : j < rs.length), i < j →
      rs[i].owner < rs[j].owner := by
    intro i j hi hj hij
    exact List.pairwise_iff_getElem.mp hs i j hi hj hij
  intro fuel
  induction fuel with
  | zero => intro l r k hk he hlk hkr hr hf; omega
  | succ f ih =>
    intro l r k hk he hlk hkr hr hf
    have hlr : l ≤ r := Nat.le_trans hlk hkr
    have hm_le : l + (r - l + 1) / 2 ≤ r := by omega
    have hm_ge : l ≤ l + (r - l + 1) / 2 := by omega
    have hmlen : l + (r - l + 1) / 2 < rs.length := Nat.lt_of_le_of_lt hm_le hr
    have hmget : rs[l + (r - l + 1) / 2]? = some (rs[l + (r - l + 1) / 2]) :=
      List.getElem?_eq_getElem hmlen
    rw [findLoop_succ, if_pos hlr, hmget]
    simp only
    by_cases hown : (rs[l + (r - l + 1) / 2]).owner = e
    · rw [if_pos hown]
      exact ⟨_, rfl⟩
    · rw [if_neg hown]
      by_cases hlt : (rs[l + (r - l + 1) / 2]).owner < e
      · rw [if_pos hlt]
        have hmk : l + (r - l + 1) / 2 < k := by
          rcases Nat.lt_trichotomy k (l + (r - l + 1) / 2) with h' | h' | h'
          · have := hmono k _ hk hmlen h'
            omega
          · have hq : rs[k]? = rs[l + (r - l + 1) / 2]? := by rw [h']
            rw [List.getElem?_eq_getElem hk, List.getElem?_eq_getElem hmlen] at hq
            rw [Option.some_inj.mp hq] at he
            exact absurd he hown
          · exact h'
        exact ih (l + (r - l + 1) / 2 + 1) r k hk he hmk hkr hr (by omega)
      · rw [if_neg hlt]
        have hkm : k < l + (r - l + 1) / 2 := by
          rcases Nat.lt_trichotomy k (l + (r - l + 1) / 2) with h' | h' | h'
          · exact h'
          · have hq : rs[k]? = rs[l + (r - l + 1) / 2]? := by rw [h']
            rw [List.getElem?_eq_getElem hk, List.getElem?_eq_getElem hmlen] at hq
            rw [Option.some_inj.mp hq] at he
            exact absurd he hown
          · have := hmono _ k hmlen hk h'
            omega
        exact ih l (l + (r - l + 1) / 2 - 1) k hk he hlk (by omega) (by omega) (by omega)

theorem ecsFindComponentFor_sound {rs : List ComponentRecord} {e i : Nat}
    (h : ecsFindComponentFor rs e = some i) : ∃ h : i < rs.length, rs[i].owner = e := by
  rw [ecsFindComponentFor] at h
  split at h
  · simp at h
  · exact findLoop_sound h

theorem ecsFindComponentFor_isSome {rs : List ComponentRecord} {e : Nat}
    (hs : RecsSorted rs) {k : Nat} (hk : k < rs.length) (he : rs[k].owner = e) :
    ∃ i, ecsFindComponentFor rs e = some i := by
  rw [ecsFindComponentFor]
  have hlen : rs.length ≠ 0 := by
    intro h0
    omega
  rw [if_neg hlen]
  exact findLoop_complete hs (rs.length + 1) 0 (rs.length - 1) k hk he (Nat.zero_le k)
    (by omega) (by omega) (by omega)

theorem ecsFindComponentFor_eq_none {rs : List ComponentRecord} {e : Nat}
    (h : ∀ r ∈ rs, r.owner ≠ e) : ecsFindComponentFor rs e = none := by
  cases hfind : ecsFindComponentFor rs e with
  | none => rfl
  | some i =>
    obtain ⟨hi, hown⟩ := ecsFindComponentFor_sound hfind
    exact absurd hown (h rs[i] (List.getElem_mem hi))

/-- A strictly sorted store, with the record at index `ri` owned by `x.owner`:
erasing that index is the same as filtering out every record of that owner —
exactly one record disappears and every other record survives in order. -/
theorem RecsSorted.eraseIdx_eq_filter {rs : List ComponentRecord} (hs : RecsSorted rs) :
    ∀ {ri : Nat} {x : ComponentRecord}, rs[ri]? = some x →
      rs.eraseIdx ri = rs.filter (fun r => r.owner != x.owner) := by
  induction rs with
  | nil => intro ri x hx; simp at hx
  | cons r0 rest ih =>
    intro ri x hx
    match ri with
    | 0 =>
      simp only [List.getElem?_cons_zero, Option.some_inj] at hx
      subst hx
      rw [List.eraseIdx_cons_zero, List.filter_cons]
      simp only [bne_self_eq_false, Bool.false_eq_true, if_neg, ite_false]
      rw [Eq.comm, List.filter_eq_self]
      intro a ha
      have := (List.pairwise_cons.mp hs).1 a ha
      simpa [bne_iff_ne] using Nat.ne_of_gt this
    | k + 1 =>
      simp only [List.getElem?_cons_succ] at hx
      rw [List.eraseIdx_cons_succ, List.filter_cons]
      have hxmem : x ∈ rest := by
        obtain ⟨hb, hv⟩ := List.getElem?_eq_some.mp hx
        rw [← hv]
        exact List.getElem_mem hb
      have hlt : r0.owner < x.owner := (List.pairwise_cons.mp hs).1 x hxmem
      have : (r0.owner != x.owner) = true := by simpa [bne_iff_ne] using Nat.ne_of_lt hlt
      rw [this]
      simp only [if_pos]
      rw [ih (List.Pairwise.of_cons hs) hx]

theorem recordGt_asym (a b : ComponentRecord) :
    recordGt a b = true → recordGt b a = false := by
  simp [recordGt]
  omega

theorem ecsSortComponents_perm (rs : List ComponentRecord) :
    (ecsSortComponents rs).Perm rs :=
  bubbleSort_perm recordGt recordGt_asym rs

/-- If the input owners are pairwise distinct, `ecsSortComponents` establishes
the strict sortedness invariant. -/
theorem ecsSortComponents_sorted {rs : List ComponentRecord}
    (hnd : (rs.map (·.owner)).Nodup) : RecsSorted (ecsSortComponents rs) := by
  haveI : IsTrans ComponentRecord (fun a b => recordGt a b = false) := by
    constructor
    intro a b c hab hbc
    simp [recordGt] at hab hbc ⊢
    omega
  have hchain := bubbleSort_sorted recordGt recordGt_asym rs
  have hle : (ecsSortComponents rs).Pairwise (fun a b => a.owner ≤ b.owner) := by
    have := List.chain'_iff_pairwise.mp hchain
    exact this.imp (by intro a b h; simp [recordGt] at h; omega)
  have hnd' : ((ecsSortComponents rs).map (·.owner)).Nodup := by
    have hpm : ((ecsSortComponents rs).map (·.owner)).Perm (rs.map (·.owner)) :=
      (ecsSortComponents_perm rs).map (·.owner)
    exact (hpm.nodup_iff).mpr hnd
  have hne : (ecsSortComponents rs).Pairwise (fun a b => a.owner ≠ b.owner) :=
    List.pairwise_map.mp hnd'
  rw [RecsSorted, List.pairwise_iff_getElem]
  intro i j hi hj hij
  have h1 := List.pairwise_iff_getElem.mp hle i j hi hj hij
  have h2 := List.pairwise_iff_getElem.mp hne i j hi hj hij
  omega

theorem TypeIdsPow.id_eq {l : List ECScomponentType} (h : TypeIdsPow l) {i : Nat}
    {t : ECScomponentType} (ht : l[i]? = some t) : t.id = 2 ^ i :=
  h (i, t) (List.mem_enum_iff_getElem?.mpr ht)

theorem TypeIdsPow.set_same {l : List ECScomponentType} {i : Nat}
    {t t' : ECScomponentType} (h : TypeIdsPow l) (ht : l[i]? = some t)
    (hid : t'.id = t.id) : TypeIdsPow (l.set i t') := by
  intro p hp
  rw [List.mem_enum_iff_getElem?, List.getElem?_set] at hp
  split at hp
  · next hip =>
    split at hp
    · cases hp
      rw [hid, h.id_eq ht, hip]
    · simp at hp
  · exact h p (List.mem_enum_iff_getElem?.mpr hp)

/-- Setting an element whose image under `f` is unchanged leaves the mapped
list unchanged (used for the entity-id list under mask updates). -/
theorem map_set_same {l : List ECSentityData} {i : Nat} {x : ECSentityData}
    (y : ECSentityData) (hx : l[i]? = some x) (hf : y.id = x.id) :
    (l.set i y).map (·.id) = l.map (·.id) := by
  apply List.ext_getElem?
  intro n
  by_cases hin : i = n
  · subst hin
    obtain ⟨hilen, hval⟩ := List.getElem?_eq_some.mp hx
    have h1 : ((l.set i y).map (·.id))[i]? = some y.id := by
      rw [List.map_set]
      exact List.getElem?_set_eq (by simpa using hilen)
    have h2 : (l.map (·.id))[i]? = some x.id := by
      rw [List.getElem?_eq_getElem (by simpa using hilen)]
      rw [List.getElem_map]
      rw [hval]
    rw [h1, h2, hf]
  · rw [List.map_set, List.getElem?_set_ne hin]

/-! ## Unfolding equations for attach and detach (part_001) -/
theorem ecsAttachComponent_found {w : ECSworld} {e c ei ti : Nat}
    {d : ECSentityData} {t : ECScomponentType}
    (hent : ecsFindEntityData w.entities e = some (ei, d))
    (hty : ecsFindComponentType w.components c = some (ti, t))
    (hbit : d.mask &&& c = 0) :
    ecsAttachComponent e c w =
      { w with
        components := w.components.set ti
          { t with records :=
              ecsSortComponents (t.records ++ [⟨e, List.replicate t.componentSize 0⟩]) },
        entities := w.entities.set ei { d with mask := d.mask ||| c } } := by
  rw [ecsAttachComponent, hent, hty]
  simp [hbit]

theorem ecsAttachComponent_noop_entity {w : ECSworld} {e c : Nat}
    (hent : ecsFindEntityData w.entities e = none) :
    ecsAttachComponent e c w = w := by
  rw [ecsAttachComponent, hent]

theorem ecsAttachComponent_noop_bit {w : ECSworld} {e c ei : Nat} {d : ECSentityData}
    (hent : ecsFindEntityData w.entities e = some (ei, d))
    (hbit : d.mask &&& c ≠ 0) :
    ecsAttachComponent e c w = w := by
  rw [ecsAttachComponent, hent]
  cases hty : ecsFindComponentType w.components c with
  | none => rfl
  | some q => simp [hbit]

theorem ecsAttachComponent_noop_type {w : ECSworld} {e c : Nat}
    (hty : ecsFindComponentType w.components c = none) :
    ecsAttachComponent e c w = w := by
  rw [ecsAttachComponent, hty]
  cases hent : ecsFindEntityData w.entities e <;> rfl

theorem ecsDetachComponent_found {w : ECSworld} {e c ei ti ri : Nat}
    {d : ECSentityData} {t : ECScomponentType}
    (hty : ecsFindComponentType w.components c = some (ti, t))
    (hent : ecsFindEntityData w.entities e = some (ei, d))
    (hbit : d.mask &&& c ≠ 0)
    (hfind : ecsFindComponentFor t.records e = some ri) :
    ecsDetachComponent e c w =
      { w with
        components := w.components.set ti { t with records := t.records.eraseIdx ri },
        entities := w.entities.set ei { d with mask := maskClear d.mask c } } := by
  rw [ecsDetachComponent, hty, hent]
  simp [hbit, hfind]

theorem ecsDetachComponent_noop_type {w : ECSworld} {e c : Nat}
    (hty : ecsFindComponentType w.components c = none) :
    ecsDetachComponent e c w = w := by
  rw [ecsDetachComponent, hty]

theorem ecsDetachComponent_noop_entity {w : ECSworld} {e c ti : Nat}
    {t : ECScomponentType}
    (hty : ecsFindComponentType w.components c = some (ti, t))
    (hent : ecsFindEntityData w.entities e = none) :
    ecsDetachComponent e c w = w := by
  rw [ecsDetachComponent, hty, hent]

theorem ecsDetachComponent_noop_bit {w : ECSworld} {e c ei ti : Nat}
    {d : ECSentityData} {t : ECScomponentType}
    (hty : ecsFindComponentType w.components c = some (ti, t))
    (hent : ecsFindEntityData w.entities e = some (ei, d))
    (hbit : d.mask &&& c = 0) :
    ecsDetachComponent e c w = w := by
  rw [ecsDetachComponent, hty, hent]
  simp [hbit]

theorem ecsDetachComponent_noop_entity' {w : ECSworld} {e c : Nat}
    (hent : ecsFindEntityData w.entities e = none) :
    ecsDetachComponent e c w = w := by
  rw [ecsDetachComponent]
  cases hty : ecsFindComponentType w.components c with
  | none => rfl
  | some q =>
    obtain ⟨ti, t⟩ := q
    rw [hent]

/-! ## Preservation of the invariant (part_001) -/
theorem WF_ecsInitWorld : WF ecsInitWorld := by
  refine ⟨?_, ?_, ?_, ?_⟩ <;> simp [ecsInitWorld, TypeIdsPow, Coherent]

theorem WF.attach {w : ECSworld} (h : WF w) (e c : Nat) :
    WF (ecsAttachComponent e c w) := by
  obtain ⟨hsort, hids, hnd, hcoh⟩ := h
  cases hent : ecsFindEntityData w.entities e with
  | none => rw [ecsAttachComponent_noop_entity hent]; exact ⟨hsort, hids, hnd, hcoh⟩
  | some p =>
    obtain ⟨ei, d⟩ := p
    cases hty : ecsFindComponentType w.components c with
    | none => rw [ecsAttachComponent_noop_type hty]; exact ⟨hsort, hids, hnd, hcoh⟩
    | some q =>
      obtain ⟨ti, t⟩ := q
      by_cases hbit : d.mask &&& c = 0
      case neg =>
        rw [ecsAttachComponent_noop_bit hent hbit]
        exact ⟨hsort, hids, hnd, hcoh⟩
      case pos =>
      rw [ecsAttachComponent_found hent hty hbit]
      obtain ⟨hdget, hdid⟩ := ecsFindEntityData_eq_some hent
      obtain ⟨htget, htid⟩ := ecsFindComponentType_eq_some hty
      have hcpow : c = 2 ^ ti := by rw [← htid]; exact hids.id_eq htget
      have hdlen : ei < w.entities.length := (List.getElem?_eq_some.mp hdget).1
      have htlen : ti < w.components.length := (List.getElem?_eq_some.mp htget).1
      have hdval : w.entities[ei] = d := (List.getElem?_eq_some.mp hdget).2
      have htval : w.components[ti] = t := (List.getElem?_eq_some.mp htget).2
      have hdmem : d ∈ w.entities := by rw [← hdval]; exact List.getElem_mem hdlen
      have htmem : t ∈ w.components := by rw [← htval]; exact List.getElem_mem htlen
      -- the entity has no record in this store yet
      have hnotmem : ∀ r ∈ t.records, r.owner ≠ e := by
        intro r hr hre
        have hx := (hcoh d hdmem t htmem).mpr ⟨r, hr, by rw [hre, hdid]⟩
        rw [htid] at hx
        exact hx hbit
      -- the appended record list has pairwise distinct owners
      have hnd_app :
          ((t.records ++ [ComponentRecord.mk e (List.replicate t.componentSize 0)]).map
            (·.owner)).Nodup := by
        rw [List.map_append, List.nodup_append]
        refine ⟨(hsort t htmem).owners_nodup, by simp, ?_⟩
        simp only [List.map_cons, List.map_nil, List.disjoint_singleton]
        intro hmem
        obtain ⟨r, hr, hre⟩ := List.mem_map.mp hmem
        exact hnotmem r hr hre
      have hsorted_new := ecsSortComponents_sorted hnd_app
      have hperm_new :=
        ecsSortComponents_perm
          (t.records ++ [ComponentRecord.mk e (List.replicate t.componentSize 0)])
      refine ⟨?_, ?_, ?_, ?_⟩
      · -- sortedness of every store
        intro t' ht'
        rcases List.mem_or_eq_of_mem_set ht' with h' | h'
        · exact hsort t' h'
        · rw [h']
          exact hsorted_new
      · -- store ids unchanged
        exact hids.set_same htget rfl
      · -- entity ids unchanged
        show ((w.entities.set ei { d with mask := d.mask ||| c }).map (·.id)).Nodup
        rw [map_set_same { d with mask := d.mask ||| c } hdget rfl]
        exact hnd
      · -- coherence
        intro d' hd' t' ht'
        obtain ⟨i', hi', hd'eq⟩ := List.mem_iff_getElem.mp hd'
        obtain ⟨j', hj', ht'eq⟩ := List.mem_iff_getElem.mp ht'
        rw [List.getElem_set] at hd'eq ht'eq
        have hi'len : i' < w.entities.length := by simpa using hi'
        have hj'len : j' < w.components.length := by simpa using hj'
        by_cases hie : ei = i' <;> by_cases hjt : ti = j'
        · -- the updated entity against the updated store
          rw [if_pos hie] at hd'eq
          rw [if_pos hjt] at ht'eq
          subst hd'eq
          subst ht'eq
          simp only
          rw [htid, lor_land_absorb]
          constructor
          · intro _
            refine ⟨⟨e, List.replicate t.componentSize 0⟩, ?_, hdid.symm⟩
            rw [hperm_new.mem_iff]
            simp
          · intro _
            rw [hcpow]
            have := Nat.two_pow_pos ti
            omega
        · -- the updated entity against an untouched store
          rw [if_pos hie] at hd'eq
          rw [if_neg hjt] at ht'eq
          subst hd'eq
          subst ht'eq
          have ht'mem : w.components[j'] ∈ w.components := List.getElem_mem hj'len
          have ht'id : w.components[j'].id = 2 ^ j' :=
            hids.id_eq (List.getElem?_eq_getElem hj'len)
          have hdisj : c &&& w.components[j'].id = 0 := by
            rw [hcpow, ht'id]
            exact two_pow_land_two_pow_of_ne (by omega)
          simp only
          rw [lor_land_of_land_zero hdisj]
          exact hcoh d hdmem _ ht'mem
        · -- an untouched entity against the updated store
          rw [if_neg hie] at hd'eq
          rw [if_pos hjt] at ht'eq
          subst hd'eq
          subst ht'eq
          have hd'mem : w.entities[i'] ∈ w.entities := List.getElem_mem hi'len
          have hne : w.entities[i'].id ≠ e := by
            intro hcontra
            have him : i' < (w.entities.map (·.id)).length := by simpa using hi'len
            have heim : ei < (w.entities.map (·.id)).length := by simpa using hdlen
            have h1 : (w.entities.map (·.id))[i'] = (w.entities.map (·.id))[ei] := by
              rw [List.getElem_map, List.getElem_map, hdval, hdid, hcontra]
            exact hie ((hnd.getElem_inj_iff.mp h1).symm)
          simp only
          constructor
          · intro hx
            obtain ⟨r, hr, hre⟩ := (hcoh _ hd'mem t htmem).mp hx
            refine ⟨r, ?_, hre⟩
            rw [hperm_new.mem_iff]
            exact List.mem_append_left _ hr
          · intro ⟨r, hr, hre⟩
            rw [hperm_new.mem_iff] at hr
            rcases List.mem_append.mp hr with hr' | hr'
            · exact (hcoh _ hd'mem t htmem).mpr ⟨r, hr', hre⟩
            · rw [List.mem_singleton.mp hr'] at hre
              exact absurd hre.symm hne
        · -- untouched entity, untouched store
          rw [if_neg hie] at hd'eq
          rw [if_neg hjt] at ht'eq
          subst hd'eq
          subst ht'eq
          exact hcoh _ (List.getElem_mem hi'len) _ (List.getElem_mem hj'len)

theorem ecsDetachComponent_noop_find {w : ECSworld} {e c ei ti : Nat}
    {d : ECSentityData} {t : ECScomponentType}
    (hty : ecsFindComponentType w.components c = some (ti, t))
    (hent : ecsFindEntityData w.entities e = some (ei, d))
    (hbit : d.mask &&& c ≠ 0)
    (hfind : ecsFindComponentFor t.records e = none) :
    ecsDetachComponent e c w = w := by
  rw [ecsDetachComponent, hty, hent]
  simp [hbit, hfind]

theorem WF.detach {w : ECSworld} (h : WF w) (e c : Nat) :
    WF (ecsDetachComponent e c w) := by
  obtain ⟨hsort, hids, hnd, hcoh⟩ := h
  cases hty : ecsFindComponentType w.components c with
  | none => rw [ecsDetachComponent_noop_type hty]; exact ⟨hsort, hids, hnd, hcoh⟩
  | some q =>
    obtain ⟨ti, t⟩ := q
    cases hent : ecsFindEntityData w.entities e with
    | none => rw [ecsDetachComponent_noop_entity hty hent]; exact ⟨hsort, hids, hnd, hcoh⟩
    | some p =>
      obtain ⟨ei, d⟩ := p
      by_cases hbit : d.mask &&& c = 0
      case pos =>
        rw [ecsDetachComponent_noop_bit hty hent hbit]
        exact ⟨hsort, hids, hnd, hcoh⟩
      case neg =>
      cases hfind : ecsFindComponentFor t.records e with
      | none =>
        rw [ecsDetachComponent_noop_find hty hent hbit hfind]
        exact ⟨hsort, hids, hnd, hcoh⟩
      | some ri =>
        rw [ecsDetachComponent_found hty hent hbit hfind]
        obtain ⟨hdget, hdid⟩ := ecsFindEntityData_eq_some hent
        obtain ⟨htget, htid⟩ := ecsFindComponentType_eq_some hty
        have hcpow : c = 2 ^ ti := by rw [← htid]; exact hids.id_eq htget
        have hdlen : ei < w.entities.length := (List.getElem?_eq_some.mp hdget).1
        have htlen : ti < w.components.length := (List.getElem?_eq_some.mp htget).1
        have hdval : w.entities[ei] = d := (List.getElem?_eq_some.mp hdget).2
        have htval : w.components[ti] = t := (List.getElem?_eq_some.mp htget).2
        have hdmem : d ∈ w.entities := by rw [← hdval]; exact List.getElem_mem hdlen
        have htmem : t ∈ w.components := by rw [← htval]; exact List.getElem_mem htlen
        obtain ⟨hrilen, hriown⟩ := ecsFindComponentFor_sound hfind
        have hriget : t.records[ri]? = some t.records[ri] := List.getElem?_eq_getElem hrilen
        have herase : t.records.eraseIdx ri =
            t.records.filter (fun r => r.owner != t.records[ri].owner) :=
          (hsort t htmem).eraseIdx_eq_filter hriget
        have herase' : t.records.eraseIdx ri = t.records.filter (fun r => r.owner != e) := by
          rw [herase, hriown]
        refine ⟨?_, ?_, ?_, ?_⟩
        · -- sortedness: erasing preserves pairwise order
          intro t' ht'
          rcases List.mem_or_eq_of_mem_set ht' with h' | h'
          · exact hsort t' h'
          · rw [h']
            exact List.Pairwise.sublist (List.eraseIdx_sublist t.records ri) (hsort t htmem)
        · -- store ids unchanged
          exact hids.set_same htget rfl
        · -- entity ids unchanged
          show ((w.entities.set ei { d with mask := maskClear d.mask c }).map (·.id)).Nodup
          rw [map_set_same { d with mask := maskClear d.mask c } hdget rfl]
          exact hnd
        · -- coherence
          intro d' hd' t' ht'
          obtain ⟨i', hi', hd'eq⟩ := List.mem_iff_getElem.mp hd'
          obtain ⟨j', hj', ht'eq⟩ := List.mem_iff_getElem.mp ht'
          rw [List.getElem_set] at hd'eq ht'eq
          have hi'len : i' < w.entities.length := by simpa using hi'
          have hj'len : j' < w.components.length := by simpa using hj'
          by_cases hie : ei = i' <;> by_cases hjt : ti = j'
          · -- updated entity against the emptied store slot
            rw [if_pos hie] at hd'eq
            rw [if_pos hjt] at ht'eq
            subst hd'eq
            subst ht'eq
            simp only
            rw [htid, ldiff_land_self]
            constructor
            · intro hx
              exact absurd rfl hx
            · intro ⟨r, hr, hre⟩
              rw [herase'] at hr
              obtain ⟨hrmem, hrne⟩ := List.mem_filter.mp hr
              rw [bne_iff_ne] at hrne
              exact absurd (by rw [hre, hdid]) hrne
          · -- updated entity against an untouched store
            rw [if_pos hie] at hd'eq
            rw [if_neg hjt] at ht'eq
            subst hd'eq
            subst ht'eq
            have ht'mem : w.components[j'] ∈ w.components := List.getElem_mem hj'len
            have ht'id : w.components[j'].id = 2 ^ j' :=
              hids.id_eq (List.getElem?_eq_getElem hj'len)
            have hdisj : c &&& w.components[j'].id = 0 := by
              rw [hcpow, ht'id]
              exact two_pow_land_two_pow_of_ne (by omega)
            simp only
            rw [ldiff_land_of_land_zero hdisj]
            exact hcoh d hdmem _ ht'mem
          · -- untouched entity against the emptied store slot
            rw [if_neg hie] at hd'eq
            rw [if_pos hjt] at ht'eq
            subst hd'eq
            subst ht'eq
            have hd'mem : w.entities[i'] ∈ w.entities := List.getElem_mem hi'len
            have hne : w.entities[i'].id ≠ e := by
              intro hcontra
              have him : i' < (w.entities.map (·.id)).length := by simpa using hi'len
              have heim : ei < (w.entities.map (·.id)).length := by simpa using hdlen
              have h1 : (w.entities.map (·.id))[i'] = (w.entities.map (·.id))[ei] := by
                rw [List.getElem_map, List.getElem_map, hdval, hdid, hcontra]
              exact hie ((hnd.getElem_inj_iff.mp h1).symm)
            simp only
            rw [herase']
            constructor
            · intro hx
              obtain ⟨r, hr, hre⟩ := (hcoh _ hd'mem t htmem).mp hx
              refine ⟨r, List.mem_filter.mpr ⟨hr, ?_⟩, hre⟩
              rw [bne_iff_ne, hre]
              exact hne
            · intro ⟨r, hr, hre⟩
              exact (hcoh _ hd'mem t htmem).mpr ⟨r, (List.mem_filter.mp hr).1, hre⟩
          · -- untouched entity, untouched store
            rw [if_neg hie] at hd'eq
            rw [if_neg hjt] at ht'eq
            subst hd'eq
            subst ht'eq
            exact hcoh _ (List.getElem_mem hi'len) _ (List.getElem_mem hj'len)

/-! ## Claim theorems -/
/-- C9: for all mask pairs `(m, q)` the matcher returns true for
`ECS_QUERY_ALL` exactly when `(m &&& q) = q`, true for `ECS_QUERY_ANY` exactly
when `(m &&& q) ≠ 0`, and false — matching no entity — for the remaining
comparison mode `ECS_NOQUERY`. -/
theorem matchQuery_spec (m q : Nat) :
    (matchQuery ⟨q, .ECS_QUERY_ALL⟩ m = true ↔ m &&& q = q) ∧
    (matchQuery ⟨q, .ECS_QUERY_ANY⟩ m = true ↔ m &&& q ≠ 0) ∧
    matchQuery ⟨q, .ECS_NOQUERY⟩ m = false := by
  refine ⟨?_, ?_, ?_⟩ <;> simp [matchQuery]

/-- C7: attaching a component the entity already has, and detaching one it
lacks (including when the entity itself is unknown), leave the whole world —
mask and every store — unchanged. -/
theorem ecsAttach_ecsDetach_idempotent (w : ECSworld) (e c : Nat) :
    (∀ ei d, ecsFindEntityData w.entities e = some (ei, d) → d.mask &&& c ≠ 0 →
      ecsAttachComponent e c w = w) ∧
    (ecsFindEntityData w.entities e = none → ecsDetachComponent e c w = w) ∧
    (∀ ei d, ecsFindEntityData w.entities e = some (ei, d) → d.mask &&& c = 0 →
      ecsDetachComponent e c w = w) := by
  refine ⟨?_, ?_, ?_⟩
  · intro ei d hent hbit
    exact ecsAttachComponent_noop_bit hent hbit
  · intro hent
    exact ecsDetachComponent_noop_entity' hent
  · intro ei d hent hbit
    cases hty : ecsFindComponentType w.components c with
    | none => exact ecsDetachComponent_noop_type hty
    | some q =>
      obtain ⟨ti, t⟩ := q
      exact ecsDetachComponent_noop_bit hty hent hbit

/-- Witness for C7 at a concrete world: entity 1 has component `0x1` and lacks
component `0x2`. -/
theorem ecsAttach_ecsDetach_idempotent_witness :
    ecsFindEntityData ([⟨1, 1⟩] : List ECSentityData) 1 = some (0, ⟨1, 1⟩) ∧
    ecsAttachComponent 1 1 ⟨[⟨1, 1⟩], 2, [⟨1, 0, [⟨1, []⟩]⟩], [], []⟩ =
      ⟨[⟨1, 1⟩], 2, [⟨1, 0, [⟨1, []⟩]⟩], [], []⟩ ∧
    ecsDetachComponent 1 2 ⟨[⟨1, 1⟩], 2, [⟨1, 0, [⟨1, []⟩]⟩], [], []⟩ =
      ⟨[⟨1, 1⟩], 2, [⟨1, 0, [⟨1, []⟩]⟩], [], []⟩ :=
  ⟨by decide,
    (ecsAttach_ecsDetach_idempotent ⟨[⟨1, 1⟩], 2, [⟨1, 0, [⟨1, []⟩]⟩], [], []⟩ 1 1).1
      0 ⟨1, 1⟩ (by decide) (by decide),
    (ecsAttach_ecsDetach_idempotent ⟨[⟨1, 1⟩], 2, [⟨1, 0, [⟨1, []⟩]⟩], [], []⟩ 1 2).2.2
      0 ⟨1, 1⟩ (by decide) (by decide)⟩

theorem regRun_components_length (strides : Nat → Nat) (n : Nat) :
    (regRun strides n).components.length = min n 64 := by
  induction n with
  | zero => simp [regRun, ecsInitWorld]
  | succ n ih =>
    rw [regRun, ecsMakeComponentType]
    by_cases h64 : (regRun strides n).components.length = 64
    · rw [if_pos h64]
      simp only
      omega
    · rw [if_neg h64]
      simp only [List.length_append, List.length_cons, List.length_nil]
      omega

/-- C8: starting from `ecsInit`, the `i`-th `ecsMakeComponentType` call for
`i < 64` — the bit width of the mask type — returns the fresh single-bit mask
`2 ^ i` (so all returned masks are distinct), and from the 64-th call on every
call returns the `nocomponent` sentinel and leaves the catalog unchanged. -/
theorem ecsMakeComponentType_spec (strides : Nat → Nat) :
    (∀ i, i < 64 → regResult strides i = some (2 ^ i)) ∧
    (∀ i j, i < 64 → j < 64 → i ≠ j → regResult strides i ≠ regResult strides j) ∧
    (∀ n, 64 ≤ n → regResult strides n = none ∧ regRun strides (n + 1) = regRun strides n) := by
  have hok : ∀ i, i < 64 → regResult strides i = some (2 ^ i) := by
    intro i hi
    have hlen := regRun_components_length strides i
    rw [regResult, ecsMakeComponentType, if_neg (by omega)]
    simp only [Option.some_inj]
    rw [hlen]
    congr 1
    omega
  refine ⟨hok, ?_, ?_⟩
  · intro i j hi hj hij
    rw [hok i hi, hok j hj]
    intro hcontra
    have := Nat.pow_right_injective (le_refl 2) (Option.some_inj.mp hcontra)
    exact hij this
  · intro n hn
    have hlen := regRun_components_length strides n
    constructor
    · rw [regResult, ecsMakeComponentType, if_pos (by omega)]
    · rw [regRun, ecsMakeComponentType, if_pos (by omega)]

/-- Witness for C8: with all payload sizes 8, the first registration returns
mask `2 ^ 0 = 0x1`, the second `2 ^ 1 = 0x2`, they differ, and the call made
once 64 types exist returns the sentinel. -/
theorem ecsMakeComponentType_spec_witness :
    regResult (fun _ => 8) 0 = some (2 ^ 0) ∧
    regResult (fun _ => 8) 1 = some (2 ^ 1) ∧
    regResult (fun _ => 8) 0 ≠ regResult (fun _ => 8) 1 ∧
    regResult (fun _ => 8) 64 = none :=
  ⟨(ecsMakeComponentType_spec (fun _ => 8)).1 0 (by decide),
    (ecsMakeComponentType_spec (fun _ => 8)).1 1 (by decide),
    (ecsMakeComponentType_spec (fun _ => 8)).2.1 0 1 (by decide) (by decide) (by decide),
    ((ecsMakeComponentType_spec (fun _ => 8)).2.2 64 (by decide)).1⟩

/-- Concatenating `k` consecutive `per`-sized chunks of `l` yields the first
`per * k` elements of `l`. -/
theorem flatten_chunks {α} (l : List α) (per : Nat) :
    ∀ k, ((List.range k).map (fun j => (l.drop (per * j)).take per)).flatten =
      l.take (per * k) := by
  intro k
  induction k with
  | zero => simp
  | succ k ih =>
    rw [List.range_succ, List.map_append, List.flatten_append]
    simp only [List.map_cons, List.map_nil, List.flatten_cons, List.flatten_nil,
      List.append_nil]
    rw [ih, Nat.mul_succ, List.take_add]

/-- The worker slices computed by part_001's dispatch, for any `size_t` value
`tc` of `maxThreads`: they concatenate back to the matched list exactly, there
are `max 1 (min tc total)` of them, and when at least two workers run the last
slice is exactly the remainder — the final `total % (threadCount - 1)`
elements. -/
theorem ecsSliceUp_partition {α} (tc : Nat) (l : List α) :
    (ecsSliceUp tc l).flatten = l ∧
    (ecsSliceUp tc l).length = max 1 (min tc l.length) ∧
    (2 ≤ min tc l.length →
      (ecsSliceUp tc l).getLast? =
        some (l.drop (l.length - l.length % (min tc l.length - 1)))) := by
  rw [ecsSliceUp]
  by_cases h0 : 0 < tc
  · rw [if_pos h0]
    have hmin : (if l.length < tc then l.length else tc) = min tc l.length := by
      split <;> omega
    rw [hmin]
    by_cases hK : min tc l.length ≤ 1
    · rw [if_pos hK]
      refine ⟨by simp, by simp; omega, by intro h2; omega⟩
    · rw [if_neg hK]
      simp only
      set n := l.length with hn
      set K := min tc l.length with hKdef
      set d := K - 1 with hd
      have hdpos : 0 < d := by omega
      have hper : (n - n % d) / d = n / d := by
        have hsub : n - n % d = d * (n / d) := by
          have := Nat.mod_add_div n d
          omega
        rw [hsub, Nat.mul_div_cancel_left _ hdpos]
      have harith : (n - n % d) / d * d + n % d = n := by
        rw [hper]
        exact Nat.div_add_mod' n d
      have hKsucc : K = d + 1 := by omega
      have hsplit : List.range K = List.range d ++ [d] := by
        rw [hKsucc, List.range_succ]
      rw [hsplit, List.map_append]
      have hcongr :
          (List.range d).map
              (fun j => (l.drop ((n - n % d) / d * j)).take (if j = K - 1 then n % d
                else (n - n % d) / d)) =
            (List.range d).map
              (fun j => (l.drop ((n - n % d) / d * j)).take ((n - n % d) / d)) := by
        apply List.map_congr_left
        intro j hj
        rw [List.mem_range] at hj
        rw [if_neg (by omega)]
      rw [hcongr]
      refine ⟨?_, ?_, ?_⟩
      · rw [List.flatten_append, flatten_chunks]
        simp only [List.map_cons, List.map_nil, List.flatten_cons, List.flatten_nil,
          List.append_nil]
        rw [if_pos trivial]
        rw [← List.take_add, harith, hn, List.take_length]
      · simp only [List.length_append, List.length_map, List.length_range,
          List.length_cons, List.length_nil]
        omega
      · intro h2
        simp only [List.map_cons, List.map_nil]
        rw [List.getLast?_concat]
        rw [if_pos trivial]
        have hoff : (n - n % d) / d * d = n - n % d := by
          omega
        rw [hoff]
        congr 1
        apply List.take_of_length_le
        rw [List.length_drop, ← hn]
        omega
  · rw [if_neg h0, if_pos (by omega)]
    have htc0 : tc = 0 := by omega
    subst htc0
    refine ⟨by simp, by simp, by intro h2; simp at h2⟩

/-- C3 (amended): for a nonnegative `maxThreads` below `2 ^ 64`, part_001's
dispatch hands out `K = max 1 (min maxThreads N)` contiguous slices which are
pairwise disjoint and concatenate, in slice order, to exactly the matched
`N`-element sequence, with the remainder (`N % (K - 1)` trailing elements) in
the last slice. (For `maxThreads ≤ 1`, and when no or one entity matches, the
single "slice" is the whole sequence, handed to the sequential call.) -/
theorem ecsSlices_partition {α} (mt : Int) (l : List α) (h0 : 0 ≤ mt)
    (hlt : mt < 2 ^ 64) :
    (ecsSlices mt l).flatten = l ∧
    (ecsSlices mt l).length = max 1 (min mt.toNat l.length) ∧
    (2 ≤ min mt.toNat l.length →
      (ecsSlices mt l).getLast? =
        some (l.drop (l.length - l.length % (min mt.toNat l.length - 1)))) := by
  have hw : intToSizeT mt = mt.toNat := by
    rw [intToSizeT, Int.emod_eq_of_lt h0 hlt]
  rw [ecsSlices, hw]
  exact ecsSliceUp_partition mt.toNat l

/-- Witness for C3 at `maxThreads = 3` over five matched entities: slices
`[10,20]`, `[30,40]`, `[50]` — three workers, remainder in the last slice. -/
theorem ecsSlices_partition_witness :
    (0 : Int) ≤ 3 ∧ (3 : Int) < 2 ^ 64 ∧ 2 ≤ min (Int.toNat 3) 5 ∧
    (ecsSlices 3 [10, 20, 30, 40, 50]).flatten = [10, 20, 30, 40, 50] ∧
    (ecsSlices 3 [10, 20, 30, 40, 50]).length = 3 ∧
    (ecsSlices 3 [10, 20, 30, 40, 50]).getLast? = some [50] := by
  have h := ecsSlices_partition 3 [10, 20, 30, 40, 50] (by decide) (by decide)
  refine ⟨by decide, by decide, by decide, h.1, ?_, ?_⟩
  · rw [h.2.1]
    decide
  · rw [h.2.2 (by decide)]
    decide

/-- C3, counterexample on part_000's dispatch (`src/unnamed/part_000` lines
388-419): with `maxThreads = 4` and three matched entities the code spawns
`threadCount = max(4, 3) = 4` workers — not `min` — each with
`perThreadCount = 3 / 4 = 0` entities, so the slices are `[[], [], [], []]`:
their concatenation misses every matched entity and the worker count differs
from `min(parallelism, matchedCount) = 3`. -/
theorem part000_dispatch_counterexample :
    Part000.ecsSlices (4 : Int) [10, 20, 30] = [[], [], [], []] ∧
    (Part000.ecsSlices (4 : Int) [10, 20, 30]).flatten ≠ [10, 20, 30] ∧
    (Part000.ecsSlices (4 : Int) [10, 20, 30]).length ≠ min 4 3 := by
  decide

/-! ## The systems phase only appends tasks -/
theorem ecsSliceCall_foldl_fields (interp : SystemBehavior) (fn : Nat) :
    ∀ (ss : List (List Nat × List Nat)) (acc : ECSworld × List SystemCall),
      (ss.foldl (ecsSliceCall interp fn) acc).1.entities = acc.1.entities ∧
      (ss.foldl (ecsSliceCall interp fn) acc).1.components = acc.1.components ∧
      (ss.foldl (ecsSliceCall interp fn) acc).1.systems = acc.1.systems := by
  intro ss
  induction ss with
  | nil => intro acc; exact ⟨rfl, rfl, rfl⟩
  | cons s ss ih =>
    intro acc
    rw [List.foldl_cons]
    exact ih (ecsSliceCall interp fn acc s)

theorem ecsSliceCall_foldl_log (interp : SystemBehavior) (fn : Nat) :
    ∀ (ss : List (List Nat × List Nat)) (w w' : ECSworld) (log : List SystemCall),
      (ss.foldl (ecsSliceCall interp fn) (w, log)).2 =
        (ss.foldl (ecsSliceCall interp fn) (w', log)).2 := by
  intro ss
  induction ss with
  | nil => intro w w' log; rfl
  | cons s ss ih =>
    intro w w' log
    rw [List.foldl_cons, List.foldl_cons]
    exact ih _ _ _

theorem ecsRunOneSystem_fields (interp : SystemBehavior) (w : ECSworld)
    (log : List SystemCall) (sys : ECSsystem) :
    (ecsRunOneSystem interp w log sys).1.entities = w.entities ∧
    (ecsRunOneSystem interp w log sys).1.components = w.components ∧
    (ecsRunOneSystem interp w log sys).1.systems = w.systems := by
  rw [ecsRunOneSystem]
  split
  · exact ⟨rfl, rfl, rfl⟩
  · exact ecsSliceCall_foldl_fields interp sys.fn _ (w, log)

theorem ecsRunOneSystem_log (interp : SystemBehavior) (sys : ECSsystem)
    {w w' : ECSworld} (hE : w.entities = w'.entities) (log : List SystemCall) :
    (ecsRunOneSystem interp w log sys).2 = (ecsRunOneSystem interp w' log sys).2 := by
  rw [ecsRunOneSystem, ecsRunOneSystem, hE]
  split
  · rfl
  · exact ecsSliceCall_foldl_log interp sys.fn _ _ _ _

theorem ecsSystemsPhase_fields (interp : SystemBehavior) :
    ∀ (ss : List ECSsystem) (w : ECSworld) (log : List SystemCall),
      (ecsSystemsPhase interp ss w log).1.entities = w.entities ∧
      (ecsSystemsPhase interp ss w log).1.components = w.components ∧
      (ecsSystemsPhase interp ss w log).1.systems = w.systems := by
  intro ss
  induction ss with
  | nil => intro w log; exact ⟨rfl, rfl, rfl⟩
  | cons sys ss ih =>
    intro w log
    rw [ecsSystemsPhase]
    have h1 := ecsRunOneSystem_fields interp w log sys
    have h2 := ih (ecsRunOneSystem interp w log sys).1 (ecsRunOneSystem interp w log sys).2
    exact ⟨h2.1.trans h1.1, h2.2.1.trans h1.2.1, h2.2.2.trans h1.2.2⟩

theorem ecsSystemsPhase_log (interp : SystemBehavior) :
    ∀ (ss : List ECSsystem) (w w' : ECSworld), w.entities = w'.entities →
      ∀ (log : List SystemCall),
      (ecsSystemsPhase interp ss w log).2 = (ecsSystemsPhase interp ss w' log).2 := by
  intro ss
  induction ss with
  | nil => intro w w' hE log; rfl
  | cons sys ss ih =>
    intro w w' hE log
    rw [ecsSystemsPhase, ecsSystemsPhase]
    have hlog := ecsRunOneSystem_log interp sys hE log
    rw [← hlog]
    apply ih _ _
    rw [(ecsRunOneSystem_fields interp w log sys).1,
      (ecsRunOneSystem_fields interp w' log sys).1]
    exact hE

/-- C4: deferred-task machinery of a tick. (1) A submission (`ecsPushTask`)
changes nothing but the queue, to which it appends. (2) At the flush that
`ecsRunSystems` performs after its system loop, a queue `[A, B, C]` is applied
exactly in that order — `A`, then `B` on `A`'s result, then `C` — and the queue
is then cleared. (3) During the system loop itself the entities, components and
system list never change, and the invocations the systems receive are
identical whatever tasks sit in the queue: queued tasks have no observable
effect before the flush. -/
theorem ecsRunTasks_fifo (interp : SystemBehavior) (w : ECSworld)
    (A B C : ecsTask) (ts : List ecsTask) :
    ((ecsPushTask w A).entities = w.entities ∧
      (ecsPushTask w A).components = w.components ∧
      (ecsPushTask w A).systems = w.systems ∧
      (ecsPushTask w A).tasks = w.tasks ++ [A]) ∧
    (ecsRunTasks { w with tasks := [A, B, C] } = do
      let w1 ← ecsRunTask A { w with tasks := [A, B, C] }
      let w2 ← ecsRunTask B w1
      let w3 ← ecsRunTask C w2
      pure { w3 with tasks := [] }) ∧
    ((ecsSystemsPhase interp w.systems { w with tasks := ts } []).1.entities = w.entities ∧
      (ecsSystemsPhase interp w.systems { w with tasks := ts } []).1.components = w.components ∧
      (ecsSystemsPhase interp w.systems { w with tasks := ts } []).1.systems = w.systems ∧
      (ecsSystemsPhase interp w.systems { w with tasks := ts } []).2 =
        (ecsSystemsPhase interp w.systems { w with tasks := [] } []).2) := by
  refine ⟨⟨rfl, rfl, rfl, rfl⟩, ?_, ?_⟩
  · rw [ecsRunTasks]
    cases h1 : ecsRunTask A { w with tasks := [A, B, C] } with
    | error u => simp [List.foldlM, h1, Except.map, Bind.bind, Except.bind, Functor.map]
    | ok w1 =>
      cases h2 : ecsRunTask B w1 with
      | error u => simp [List.foldlM, h1, h2, Except.map, Bind.bind, Except.bind, Functor.map]
      | ok w2 =>
        cases h3 : ecsRunTask C w2 with
        | error u =>
          simp [List.foldlM, h1, h2, h3, Except.map, Bind.bind, Except.bind, Functor.map]
        | ok w3 =>
          simp [List.foldlM, h1, h2, h3, Except.map, Bind.bind, Except.bind, Functor.map,
            ecsClearTasks, Pure.pure, Except.pure]
  · have hf := ecsSystemsPhase_fields interp w.systems { w with tasks := ts } []
    refine ⟨hf.1, hf.2.1, hf.2.2, ?_⟩
    exact ecsSystemsPhase_log interp w.systems { w with tasks := ts }
      { w with tasks := [] } rfl []

/-! ## Invariant preservation over operation sequences, and detach correctness -/
theorem applyOps_WF : ∀ (ops : List EcsOp) (w : ECSworld), WF w → WF (applyOps ops w) := by
  intro ops
  induction ops with
  | nil => intro w h; exact h
  | cons op ops ih =>
    intro w h
    rw [applyOps, List.foldl_cons]
    show WF (applyOps ops (applyOp w op))
    apply ih
    cases op with
    | attach e c => exact h.attach e c
    | detach e c => exact h.detach e c

/-- C1 (amended, part_001): every sequence of `ecsAttachComponent` /
`ecsDetachComponent` calls preserves well-formedness, and in particular leaves
every store's records strictly ascending — hence unique — by owner id. (The
swap-based detach of part_000 violates this; see
`part000_detach_counterexample`.) -/
theorem applyOps_stores_sorted (ops : List EcsOp) (w : ECSworld) (h : WF w) :
    WF (applyOps ops w) ∧
    ∀ t ∈ (applyOps ops w).components,
      t.records.Pairwise (fun a b => a.owner < b.owner) :=
  ⟨applyOps_WF ops w h, fun t ht => (applyOps_WF ops w h).1 t ht⟩

/-- Witness for C1: two live entities, one registered type; attach both, detach
one. -/
theorem applyOps_stores_sorted_witness :
    WF ⟨[⟨1, 0⟩, ⟨2, 0⟩], 3, [⟨1, 0, []⟩], [], []⟩ ∧
    WF (applyOps [.attach 2 1, .attach 1 1, .detach 2 1]
      ⟨[⟨1, 0⟩, ⟨2, 0⟩], 3, [⟨1, 0, []⟩], [], []⟩) ∧
    ∀ t ∈ (applyOps [.attach 2 1, .attach 1 1, .detach 2 1]
      ⟨[⟨1, 0⟩, ⟨2, 0⟩], 3, [⟨1, 0, []⟩], [], []⟩).components,
      t.records.Pairwise (fun a b => a.owner < b.owner) :=
  ⟨by decide,
    (applyOps_stores_sorted [.attach 2 1, .attach 1 1, .detach 2 1]
      ⟨[⟨1, 0⟩, ⟨2, 0⟩], 3, [⟨1, 0, []⟩], [], []⟩ (by decide)).1,
    (applyOps_stores_sorted [.attach 2 1, .attach 1 1, .detach 2 1]
      ⟨[⟨1, 0⟩, ⟨2, 0⟩], 3, [⟨1, 0, []⟩], [], []⟩ (by decide)).2⟩

/-- C1, counterexample on part_000's detach (`src/unnamed/part_000` lines
228-249): on the store of a zero-payload type (one 8-byte word per record)
whose owner words are `[1,2,3,4]` — reachable by four attaches — detaching
entity 1 copies the **last** record over the block `ecsFindComponentFor`
returned (which in this revision points one record past the owner looked up)
and truncates, leaving owners `[1,4,3]`: not strictly ascending, and entity 1's
record is still present. -/
theorem part000_detach_counterexample :
    Part000.ecsAttachComponent (Part000.ecsAttachComponent (Part000.ecsAttachComponent
        (Part000.ecsAttachComponent [] 1) 2) 3) 4 = [1, 2, 3, 4] ∧
    Part000.ecsDetachComponent [1, 2, 3, 4] 1 = .ok [1, 4, 3] ∧
    ¬ List.Pairwise (· < ·) [1, 4, 3] := by
  decide

/-- C2: on a well-formed world, detaching a component the live entity `e`
actually has removes exactly `e`'s record from that store — every other
record, and every other store, is untouched and order is preserved — and
clears the bit: afterwards `ecsGetComponentMask` no longer contains `c` and
`ecsGetComponentPtr` returns null. -/
theorem ecsDetachComponent_spec {w : ECSworld} {e c ei ti : Nat}
    {d : ECSentityData} {t : ECScomponentType}
    (hwf : WF w)
    (hty : ecsFindComponentType w.components c = some (ti, t))
    (hent : ecsFindEntityData w.entities e = some (ei, d))
    (hbit : d.mask &&& c ≠ 0) :
    ecsDetachComponent e c w =
      { w with
        components := w.components.set ti
          { t with records := t.records.filter (fun r => r.owner != e) },
        entities := w.entities.set ei { d with mask := maskClear d.mask c } } ∧
    ecsGetComponentMask (ecsDetachComponent e c w) e = some (maskClear d.mask c) ∧
    maskClear d.mask c &&& c = 0 ∧
    ecsGetComponentPtr (ecsDetachComponent e c w) e c = .ok none := by
  obtain ⟨hsort, hids, hnd, hcoh⟩ := hwf
  obtain ⟨hdget, hdid⟩ := ecsFindEntityData_eq_some hent
  obtain ⟨htget, htid⟩ := ecsFindComponentType_eq_some hty
  have hdlen : ei < w.entities.length := (List.getElem?_eq_some.mp hdget).1
  have htlen : ti < w.components.length := (List.getElem?_eq_some.mp htget).1
  have hdval : w.entities[ei] = d := (List.getElem?_eq_some.mp hdget).2
  have htval : w.components[ti] = t := (List.getElem?_eq_some.mp htget).2
  have hdmem : d ∈ w.entities := by rw [← hdval]; exact List.getElem_mem hdlen
  have htmem : t ∈ w.components := by rw [← htval]; exact List.getElem_mem htlen
  obtain ⟨r, hr, hre⟩ := (hcoh d hdmem t htmem).mp (by rw [htid]; exact hbit)
  obtain ⟨k, hk, hkval⟩ := List.mem_iff_getElem.mp hr
  obtain ⟨ri, hfind⟩ :=
    ecsFindComponentFor_isSome (hsort t htmem) hk (by rw [hkval, hre, hdid])
  obtain ⟨hrilen, hriown⟩ := ecsFindComponentFor_sound hfind
  have hshape := ecsDetachComponent_found hty hent hbit hfind
  have herase : t.records.eraseIdx ri = t.records.filter (fun r => r.owner != e) := by
    have h' := (hsort t htmem).eraseIdx_eq_filter (List.getElem?_eq_getElem hrilen)
    rw [hriown] at h'
    exact h'
  have hmask_id : (ECSentityData.mk d.id (maskClear d.mask c)).id = e := hdid
  have hfound_set :
      ecsFindEntityData
          (w.entities.set ei { d with mask := maskClear d.mask c }) e =
        some (ei, { d with mask := maskClear d.mask c }) :=
    ecsFindEntityData_set hent hmask_id
  have htype_set :
      ecsFindComponentType
          (w.components.set ti { t with records := t.records.filter (fun r => r.owner != e) })
          c =
        some (ti, { t with records := t.records.filter (fun r => r.owner != e) }) :=
    ecsFindComponentType_set hty htid
  have hstore_none :
      ecsFindComponentFor (t.records.filter (fun r => r.owner != e)) e = none := by
    apply ecsFindComponentFor_eq_none
    intro r' hr'
    have := (List.mem_filter.mp hr').2
    rwa [bne_iff_ne] at this
  refine ⟨?_, ?_, ldiff_land_self d.mask c, ?_⟩
  · rw [hshape, herase]
  · rw [hshape, herase, ecsGetComponentMask]
    rw [show ({ w with
        components := w.components.set ti
          { t with records := t.records.filter (fun r => r.owner != e) },
        entities := w.entities.set ei { d with mask := maskClear d.mask c } } :
        ECSworld).entities =
      w.entities.set ei { d with mask := maskClear d.mask c } from rfl]
    rw [hfound_set]
    rfl
  · rw [hshape, herase, ecsGetComponentPtr]
    rw [show ({ w with
        components := w.components.set ti
          { t with records := t.records.filter (fun r => r.owner != e) },
        entities := w.entities.set ei { d with mask := maskClear d.mask c } } :
        ECSworld).components =
      w.components.set ti { t with records := t.records.filter (fun r => r.owner != e) }
      from rfl]
    rw [htype_set]
    simp only [hstore_none, Option.none_bind]

/-- Witness for C2: entity 1 with mask `0x3`, stores for types `0x1` and `0x2`
each holding its record; detaching type `0x1` leaves mask `0x2`, a null
`ecsGetComponentPtr`, and the `0x2` store untouched. -/
theorem ecsDetachComponent_spec_witness :
    WF ⟨[⟨1, 3⟩], 2, [⟨1, 0, [⟨1, []⟩]⟩, ⟨2, 0, [⟨1, []⟩]⟩], [], []⟩ ∧
    ecsGetComponentMask
      (ecsDetachComponent 1 1 ⟨[⟨1, 3⟩], 2, [⟨1, 0, [⟨1, []⟩]⟩, ⟨2, 0, [⟨1, []⟩]⟩], [], []⟩)
      1 = some 2 ∧
    ecsGetComponentPtr
      (ecsDetachComponent 1 1 ⟨[⟨1, 3⟩], 2, [⟨1, 0, [⟨1, []⟩]⟩, ⟨2, 0, [⟨1, []⟩]⟩], [], []⟩)
      1 1 = .ok none := by
  have hwf : WF ⟨[⟨1, 3⟩], 2, [⟨1, 0, [⟨1, []⟩]⟩, ⟨2, 0, [⟨1, []⟩]⟩], [], []⟩ := by decide
  have hty : ecsFindComponentType
      (⟨[⟨1, 3⟩], 2, [⟨1, 0, [⟨1, []⟩]⟩, ⟨2, 0, [⟨1, []⟩]⟩], [], []⟩ : ECSworld).components 1 =
      some (0, ⟨1, 0, [⟨1, []⟩]⟩) := by decide
  have hent : ecsFindEntityData
      (⟨[⟨1, 3⟩], 2, [⟨1, 0, [⟨1, []⟩]⟩, ⟨2, 0, [⟨1, []⟩]⟩], [], []⟩ : ECSworld).entities 1 =
      some (0, ⟨1, 3⟩) := by decide
  have hbit : (3 : Nat) &&& 1 ≠ 0 := by decide
  have h := ecsDetachComponent_spec hwf hty hent hbit
  refine ⟨hwf, ?_, h.2.2.2⟩
  rw [h.2.1]
  decide

/-- C2, counterexample on the detach of src/ecs.c lines 165-186 (the same code
as part_000's at record level): detaching entity 1's only component `0x1` does
remove the record, but the function returns without clearing the mask bit, so
`ecsGetComponentMask` still reports `0x1` — queries keep matching and the
component can never be re-attached. -/
theorem ecsc_detach_mask_counterexample :
    EcsC.ecsDetachComponent 1 1 ⟨[⟨1, 1⟩], 2, [⟨1, 0, [⟨1, []⟩]⟩], [], []⟩ =
      ⟨[⟨1, 1⟩], 2, [⟨1, 0, []⟩], [], []⟩ ∧
    ecsGetComponentMask
      (EcsC.ecsDetachComponent 1 1 ⟨[⟨1, 1⟩], 2, [⟨1, 0, [⟨1, []⟩]⟩], [], []⟩) 1 = some 1 ∧
    (1 : Nat) &&& 1 ≠ 0 := by
  decide

/-- C5: part_001's `ecsTaskDestroyEntity` (lines 302-318) computes
`countAfter = size - index` and asserts `countAfter < size`, which is false for
the live entity at index 0 of the entities array: flushing `destroyEntity(1)`
in a world whose first entity record is entity 1 aborts on the assert instead
of destroying it. Destroying the entity at any later index succeeds (modulo a
one-record out-of-bounds read by its `memmove`), as the third conjunct shows
for entity 2. -/
theorem ecsTaskDestroyEntity_assert_bug :
    ecsTaskDestroyEntity 1 ⟨[⟨1, 0⟩, ⟨2, 0⟩], 3, [], [], []⟩ = .error .assertFail ∧
    ecsRunTasks ⟨[⟨1, 0⟩, ⟨2, 0⟩], 3, [], [], [.ECS_ENTITY_DESTROY 1]⟩ =
      .error .assertFail ∧
    ecsTaskDestroyEntity 2 ⟨[⟨1, 0⟩, ⟨2, 0⟩], 3, [], [], []⟩ =
      .ok ⟨[⟨1, 0⟩], 3, [], [], []⟩ := by
  decide

/-- C6: `ecsGetComponentPtr` hands the unchecked result of
`ecsFindComponentType` to `ecsFindComponentFor`, which immediately reads
`type->size`; when the mask `0x1` names no registered component type — here,
in the freshly initialised world — that is a null-pointer dereference, not the
null return the claim describes. For a registered type the function does
behave: null on an empty store, and the (zeroed) payload found by binary
search once the record exists. -/
theorem ecsGetComponentPtr_null_deref_bug :
    ecsGetComponentPtr ecsInitWorld 1 1 = .error .nullDeref ∧
    ecsGetComponentPtr (ecsMakeComponentType 4 ecsInitWorld).2 1 1 = .ok none ∧
    ecsGetComponentPtr (ecsCreateEntity 1 (ecsMakeComponentType 4 ecsInitWorld).2).2 1 1 =
      .ok (some [0, 0, 0, 0]) := by
  decide

/-- C10: part_001's `ecsTaskDisableSystem` (lines 498-510) dropped the
`NULL` check that part_000 and ecs.c perform on `ecsFindSystem`'s result:
applying an unregister task for a callback that is not in the list — whether
the list is empty or not — computes `(end - NULL) - 1` and `memmove`s from the
null pointer instead of being a silent no-op. Disabling a registered callback
works (third conjunct). -/
theorem ecsTaskDisableSystem_null_bug :
    ecsTaskDisableSystem 5 ecsInitWorld = .error .nullDeref ∧
    ecsTaskDisableSystem 5 ⟨[], 1, [], [⟨7, ⟨0, .ECS_NOQUERY⟩, 1, 0⟩], []⟩ =
      .error .nullDeref ∧
    ecsTaskDisableSystem 7 ⟨[], 1, [], [⟨7, ⟨0, .ECS_NOQUERY⟩, 1, 0⟩], []⟩ =
      .ok ⟨[], 1, [], [], []⟩ := by
  decide
